import Mathlib

/-!
# Verification of the music-maker MIDI core

Shallow embedding of the MIDI-CSV core of the `music-maker` repository:
the CSV event parser, tempo map builder, note pairer, schedule builder
(`src/midiCsv.ts`), the GM instrument lookup (`src/gm.ts`) and the
Standard-MIDI-File encoder (`src/midiFile.ts`).

JavaScript numbers are modelled as `ℚ` (the source only ever produces
finite values once `Number.isFinite` checks pass); `Number(string)` is
modelled as an abstract parameter `num : String → Option ℚ` where `none`
stands for a non-finite result (`NaN`/`±Infinity`).  JavaScript 32-bit
integer operations (`&`, `|`, `<<`, `>>`) are modelled on `Nat` bit
patterns in `[0, 2^32)` with explicit `% 2^32` arithmetic; masking with
`& (2^k - 1)` is written `% 2^k`, and `x | y` on operands with disjoint
bits is written as addition.
-/

namespace MusicMaker

/-! ## Variable-length quantities (`src/midiFile.ts`, `encodeVlq`)

`encodeVlq` packs 7-bit groups into the 32-bit variable `buffer`
(`buffer <<= 8; buffer |= 0x80 | (v & 0x7f)`) and then unpacks it byte by
byte.  Both loops are modelled with fuel: the packing loop
`while ((v >>= 7))` and the unpacking loop `while (true) { ...; if
(buffer & 0x80) buffer >>= 8; else break; }` do not terminate for every
input, because `<<` and `>>` are signed 32-bit operations in JavaScript.
A `none` result means the corresponding JavaScript loop never exits.
-/

/-- JavaScript signed 32-bit arithmetic shift right `>> s` on a bit
pattern in `[0, 2^32)`: patterns `≥ 2^31` are negative and sign-extend. -/
def asr32 (p : Nat) (s : Nat) : Nat :=
  if p < 2 ^ 31 then p / 2 ^ s else p / 2 ^ s + (2 ^ 32 - 2 ^ (32 - s))

/-- The packing loop of `encodeVlq`: state is the current value `v` and
`buffer`, both 32-bit patterns.  One iteration models
`while ((v >>= 7)) { buffer <<= 8; buffer |= 0x80 | (v & 0x7f); }`:
`0x80 | (v & 0x7f)` is `128 + v % 128` (disjoint bits) and
`(buffer << 8) | g` with `g < 256` is `buffer * 256 % 2^32 + g`. -/
def vlqPack : Nat → Nat → Nat → Option Nat
  | 0, _, _ => none
  | fuel + 1, v, buffer =>
      let v' := asr32 v 7
      if v' = 0 then some buffer
      else vlqPack fuel v' (buffer * 256 % 2 ^ 32 + (128 + v' % 128))

/-- The unpacking loop of `encodeVlq`:
`out.push(buffer & 0xff); if (buffer & 0x80) buffer >>= 8; else break;`.
`buffer & 0xff` is `buffer % 256` and the test `buffer & 0x80` is
"bit 7 set", i.e. `buffer / 128 % 2 = 1`. -/
def vlqUnpack : Nat → Nat → List Nat → Option (List Nat)
  | 0, _, _ => none
  | fuel + 1, buffer, out =>
      let out' := out ++ [buffer % 256]
      if buffer / 128 % 2 = 1 then vlqUnpack fuel (asr32 buffer 8) out'
      else some out'

/-- Model of `encodeVlq(value)` from `src/midiFile.ts`.  The input is an integer
(`Math.floor` is the identity there); `let v = Math.max(0, ...)` clamps
to `≥ 0`, and the first bitwise operation applies `ToInt32`, i.e. takes
the pattern `% 2^32`.  Fuel 40 exceeds any terminating run of either
loop (a 32-bit pattern is exhausted after at most 5 shifts by 7 and at
most 4 shifts by 8 before either loop exits or reaches its fixed point). -/
def encodeVlq (value : Int) : Option (List Nat) :=
  let v := (max value 0).toNat % 2 ^ 32
  match vlqPack 40 v (v % 128) with
  | none => none
  | some buffer => vlqUnpack 40 buffer []

/-- The standard MIDI VLQ decoder: 7 data bits per byte, high bit is the
continuation flag, most-significant group first. -/
def vlqDecode (bytes : List Nat) : Nat :=
  bytes.foldl (fun acc b => acc * 128 + b % 128) 0

/-- The seven values the spec's round-trip property names. -/
def vlqTestValues : List Int :=
  [0, 127, 128, 16383, 16384, 2097151, 268435455]

example : encodeVlq 0 = some [0] := by decide
example : encodeVlq 128 = some [0x81, 0x00] := by decide
example : encodeVlq 268435455 = some [0xff, 0xff, 0xff, 0x7f] := by decide
example : encodeVlq 268435456 = none := by decide

theorem asr32_of_lt (p s : Nat) (h : p < 2 ^ 31) : asr32 p s = p / 2 ^ s :=
  if_pos h

theorem vlqPack_done (f v b : Nat) (hf : f ≠ 0) (h : asr32 v 7 = 0) :
    vlqPack f v b = some b := by
  cases f with
  | zero => exact absurd rfl hf
  | succ f => simp [vlqPack, h]

theorem vlqPack_step (f v b : Nat) (hf : f ≠ 0) (h : asr32 v 7 ≠ 0) :
    vlqPack f v b
      = vlqPack (f - 1) (asr32 v 7) (b * 256 % 2 ^ 32 + (128 + asr32 v 7 % 128)) := by
  cases f with
  | zero => exact absurd rfl hf
  | succ f => simp [vlqPack, h]

theorem vlqUnpack_done (f b : Nat) (out : List Nat) (hf : f ≠ 0)
    (h : ¬ b / 128 % 2 = 1) : vlqUnpack f b out = some (out ++ [b % 256]) := by
  cases f with
  | zero => exact absurd rfl hf
  | succ f => simp [vlqUnpack, h]

theorem vlqUnpack_step (f b : Nat) (out : List Nat) (hf : f ≠ 0)
    (h : b / 128 % 2 = 1) :
    vlqUnpack f b out = vlqUnpack (f - 1) (asr32 b 8) (out ++ [b % 256]) := by
  cases f with
  | zero => exact absurd rfl hf
  | succ f => simp [vlqUnpack, h]

/-- Once every byte of the 32-bit `buffer` has its high bit set, the
unpack loop of `encodeVlq` never exits: each shift by 8 sign-extends with
a `0xff` byte, so the `buffer & 0x80` test stays true forever.  This is
the real divergence behind `encodeVlq 268435456 = none`. -/
theorem vlqUnpack_diverges_of_high_bytes :
    ∀ (f b : Nat) (out : List Nat), b < 2 ^ 32 →
      (∀ i < 4, 128 ≤ b / 2 ^ (8 * i) % 256) → vlqUnpack f b out = none := by
  intro f
  induction f with
  | zero => intro b out _ _; rfl
  | succ f ih =>
      intro b out hlt hbytes
      have h0 := hbytes 0 (by norm_num)
      have h1 := hbytes 1 (by norm_num)
      have h2 := hbytes 2 (by norm_num)
      have h3 := hbytes 3 (by norm_num)
      simp only [pow_zero, Nat.mul_zero, Nat.div_one] at h0
      have hcond : b / 128 % 2 = 1 := by omega
      have hneg : ¬ b < 2 ^ 31 := by
        intro hb
        have : b / 2 ^ (8 * 3) % 256 = b / 2 ^ 24 := by
          have : b / 2 ^ (8 * 3) < 256 := by omega
          omega
        omega
      have hshift : asr32 b 8 = b / 256 + (2 ^ 32 - 2 ^ 24) := by
        simp only [asr32, if_neg hneg]
        norm_num
      rw [vlqUnpack_step _ _ _ (Nat.succ_ne_zero f) hcond, hshift]
      refine ih _ _ (by omega) ?_
      intro i hi
      interval_cases i <;> omega

/-- The packing loop applied to `2^28` produces the 32-bit pattern
`0x80808081`, whose four bytes all have the high bit set. -/
example : vlqPack 40 (2 ^ 28) (2 ^ 28 % 128) = some 0x80808081 := by decide

theorem asr32_seven (p : Nat) (h : p < 2 ^ 31) : asr32 p 7 = p / 128 := by
  rw [asr32_of_lt _ _ h]; norm_num

theorem asr32_eight (p : Nat) (h : p < 2 ^ 31) : asr32 p 8 = p / 256 := by
  rw [asr32_of_lt _ _ h]; norm_num

theorem encodeVlq_natCast (n : Nat) (h : n < 2 ^ 32) :
    encodeVlq (n : Int)
      = match vlqPack 40 n (n % 128) with
        | none => none
        | some buffer => vlqUnpack 40 buffer [] := by
  have h1 : (max (n : Int) 0).toNat % 2 ^ 32 = n := by omega
  simp only [encodeVlq, h1]

theorem encodeVlq_eq_of_pack (n B : Nat) (h : n < 2 ^ 32)
    (hp : vlqPack 40 n (n % 128) = some B) :
    encodeVlq (n : Int) = vlqUnpack 40 B [] := by
  rw [encodeVlq_natCast n h, hp]

theorem byte_cond (a g : Nat) (hg : 128 ≤ g) (hg2 : g < 256) :
    (a * 256 + g) / 128 % 2 = 1 := by omega

theorem byte_mod (a g : Nat) (hg2 : g < 256) : (a * 256 + g) % 256 = g := by
  omega

theorem byte_div (a g : Nat) (hg2 : g < 256) : (a * 256 + g) / 256 = a := by
  omega

theorem mul256_mod32 (a : Nat) (h : a < 16777216) :
    a * 256 % 2 ^ 32 = a * 256 := Nat.mod_eq_of_lt (by omega)

theorem low_done (m : Nat) (h : m < 128) : ¬ m / 128 % 2 = 1 := by omega

/-- For inputs below `2^28` (at most four 7-bit groups) `encodeVlq`
terminates and emits a nonempty byte list whose last byte has the high
bit clear and all other bytes have it set. -/
theorem encodeVlq_byte_shape (n : Nat) (h : n < 2 ^ 28) :
    ∃ init last, encodeVlq (n : Int) = some (init ++ [last])
      ∧ (∀ b ∈ init, 128 ≤ b) ∧ last < 128 := by
  by_cases c1 : n < 128
  · have hp : vlqPack 40 n (n % 128) = some (n % 128) :=
      vlqPack_done 40 n _ (by norm_num) (by rw [asr32_seven n (by omega)]; omega)
    rw [encodeVlq_eq_of_pack n _ (by omega) hp,
      vlqUnpack_done 40 _ [] (by norm_num) (low_done _ (by omega))]
    refine ⟨[], n % 128 % 256, rfl, by simp, by omega⟩
  · by_cases c2 : n < 16384
    · obtain ⟨m0, q1, hm0, hq1⟩ : ∃ m0 q1, m0 = n % 128 ∧ q1 = n / 128 :=
        ⟨_, _, rfl, rfl⟩
      have hb : m0 < 128 ∧ 1 ≤ q1 ∧ q1 < 128 := by omega
      have hp : vlqPack 40 n (n % 128) = some (m0 * 256 + (128 + q1)) := by
        rw [← hm0,
          vlqPack_step 40 n m0 (by norm_num) (by rw [asr32_seven n (by omega)]; omega),
          asr32_seven n (by omega), ← hq1, mul256_mod32 m0 (by omega),
          Nat.mod_eq_of_lt (show q1 < 128 by omega)]
        exact vlqPack_done _ q1 _ (by norm_num)
          (by rw [asr32_seven q1 (by omega)]; omega)
      rw [encodeVlq_eq_of_pack n _ (by omega) hp,
        vlqUnpack_step 40 _ [] (by norm_num) (byte_cond m0 _ (by omega) (by omega)),
        asr32_eight _ (by omega), byte_mod m0 _ (by omega), byte_div m0 _ (by omega),
        vlqUnpack_done (40 - 1) m0 _ (by norm_num) (low_done m0 (by omega)),
        Nat.mod_eq_of_lt (show m0 < 256 by omega)]
      exact ⟨[128 + q1], m0, rfl, by intro b hb'; fin_cases hb' <;> omega, by omega⟩
    · by_cases c3 : n < 2097152
      · obtain ⟨m0, q1, m1, q2, hm0, hq1, hm1, hq2⟩ :
            ∃ m0 q1 m1 q2, m0 = n % 128 ∧ q1 = n / 128 ∧ m1 = q1 % 128
              ∧ q2 = n / 16384 := ⟨_, _, _, _, rfl, rfl, rfl, rfl⟩
        have hb : m0 < 128 ∧ m1 < 128 ∧ 128 ≤ q1 ∧ q1 < 16384
            ∧ 1 ≤ q2 ∧ q2 < 128 := by omega
        have hq12 : q1 / 128 = q2 := by omega
        obtain ⟨b1, hb1⟩ : ∃ b1, b1 = m0 * 256 + (128 + m1) := ⟨_, rfl⟩
        have hb1lt : b1 < 32768 := by omega
        have hp : vlqPack 40 n (n % 128) = some (b1 * 256 + (128 + q2)) := by
          rw [← hm0,
            vlqPack_step 40 n m0 (by norm_num) (by rw [asr32_seven n (by omega)]; omega),
            asr32_seven n (by omega), ← hq1, mul256_mod32 m0 (by omega), ← hm1, ← hb1,
            vlqPack_step (40 - 1) q1 _ (by norm_num)
              (by rw [asr32_seven q1 (by omega)]; omega),
            asr32_seven q1 (by omega), hq12, mul256_mod32 b1 (by omega),
            Nat.mod_eq_of_lt (show q2 < 128 by omega)]
          exact vlqPack_done _ q2 _ (by norm_num)
            (by rw [asr32_seven q2 (by omega)]; omega)
        rw [encodeVlq_eq_of_pack n _ (by omega) hp,
          vlqUnpack_step 40 _ [] (by norm_num) (byte_cond b1 _ (by omega) (by omega)),
          asr32_eight _ (by omega), byte_mod b1 _ (by omega), byte_div b1 _ (by omega),
          vlqUnpack_step (40 - 1) b1 _ (by norm_num)
            (by rw [hb1]; exact byte_cond m0 _ (by omega) (by omega)),
          asr32_eight _ (by omega),
          show b1 % 256 = 128 + m1 by rw [hb1]; exact byte_mod m0 _ (by omega),
          show b1 / 256 = m0 by rw [hb1]; exact byte_div m0 _ (by omega),
          vlqUnpack_done (40 - 1 - 1) m0 _ (by norm_num) (low_done m0 (by omega)),
          Nat.mod_eq_of_lt (show m0 < 256 by omega)]
        exact ⟨[128 + q2, 128 + m1], m0, rfl,
          by intro b hb'; fin_cases hb' <;> omega, by omega⟩
      · obtain ⟨m0, q1, m1, q2, m2, q3, hm0, hq1, hm1, hq2, hm2, hq3⟩ :
            ∃ m0 q1 m1 q2 m2 q3, m0 = n % 128 ∧ q1 = n / 128 ∧ m1 = q1 % 128
              ∧ q2 = n / 16384 ∧ m2 = q2 % 128 ∧ q3 = n / 2097152 :=
          ⟨_, _, _, _, _, _, rfl, rfl, rfl, rfl, rfl, rfl⟩
        have hb : m0 < 128 ∧ m1 < 128 ∧ m2 < 128 ∧ 1 ≤ q3 ∧ q3 < 128
            ∧ 128 ≤ q2 ∧ q2 < 16384 ∧ 16384 ≤ q1 ∧ q1 < 2097152 := by omega
        have hq12 : q1 / 128 = q2 := by omega
        have hq23 : q2 / 128 = q3 := by omega
        obtain ⟨b1, hb1⟩ : ∃ b1, b1 = m0 * 256 + (128 + m1) := ⟨_, rfl⟩
        have hb1lt : b1 < 32768 := by omega
        obtain ⟨b2, hb2⟩ : ∃ b2, b2 = b1 * 256 + (128 + m2) := ⟨_, rfl⟩
        have hb2lt : b2 < 8388608 := by omega
        have hp : vlqPack 40 n (n % 128) = some (b2 * 256 + (128 + q3)) := by
          rw [← hm0,
            vlqPack_step 40 n m0 (by norm_num) (by rw [asr32_seven n (by omega)]; omega),
            asr32_seven n (by omega), ← hq1, mul256_mod32 m0 (by omega), ← hm1, ← hb1,
            vlqPack_step (40 - 1) q1 _ (by norm_num)
              (by rw [asr32_seven q1 (by omega)]; omega),
            asr32_seven q1 (by omega), hq12, mul256_mod32 b1 (by omega), ← hm2, ← hb2,
            vlqPack_step (40 - 1 - 1) q2 _ (by norm_num)
              (by rw [asr32_seven q2 (by omega)]; omega),
            asr32_seven q2 (by omega), hq23, mul256_mod32 b2 (by omega),
            Nat.mod_eq_of_lt (show q3 < 128 by omega)]
          exact vlqPack_done _ q3 _ (by norm_num)
            (by rw [asr32_seven q3 (by omega)]; omega)
        rw [encodeVlq_eq_of_pack n _ (by omega) hp,
          vlqUnpack_step 40 _ [] (by norm_num) (byte_cond b2 _ (by omega) (by omega)),
          asr32_eight _ (by omega), byte_mod b2 _ (by omega), byte_div b2 _ (by omega),
          vlqUnpack_step (40 - 1) b2 _ (by norm_num)
            (by rw [hb2]; exact byte_cond b1 _ (by omega) (by omega)),
          asr32_eight _ (by omega),
          show b2 % 256 = 128 + m2 by rw [hb2]; exact byte_mod b1 _ (by omega),
          show b2 / 256 = b1 by rw [hb2]; exact byte_div b1 _ (by omega),
          vlqUnpack_step (40 - 1 - 1) b1 _ (by norm_num)
            (by rw [hb1]; exact byte_cond m0 _ (by omega) (by omega)),
          asr32_eight _ (by omega),
          show b1 % 256 = 128 + m1 by rw [hb1]; exact byte_mod m0 _ (by omega),
          show b1 / 256 = m0 by rw [hb1]; exact byte_div m0 _ (by omega),
          vlqUnpack_done (40 - 1 - 1 - 1) m0 _ (by norm_num) (low_done m0 (by omega)),
          Nat.mod_eq_of_lt (show m0 < 256 by omega)]
        exact ⟨[128 + q3, 128 + m2, 128 + m1], m0, rfl,
          by intro b hb'; fin_cases hb' <;> omega, by omega⟩

/-- The unpack loop of `encodeVlq` applied to the buffer `0x80808081`
(produced by packing `2^28`) returns `none` for every fuel: the
JavaScript loop really hangs, this is not a fuel artefact. -/
theorem vlqUnpack_hangs_on_pow28_buffer :
    ∀ (f : Nat) (out : List Nat), vlqUnpack f 0x80808081 out = none := fun f out =>
  vlqUnpack_diverges_of_high_bytes f _ out (by norm_num) (by decide)

/-- C1 (amended): encoding then decoding each of
`{0, 127, 128, 16383, 16384, 2097151, 268435455}` with the standard MIDI
VLQ decoder reproduces the value exactly; `encodeVlq 0` is the single
byte `0x00`; and for every non-negative integer *below `2^28`* the
emitted bytes have the continuation (high) bit set on all but the last
byte and clear on the last byte.  The original claim asserted the byte
property for every non-negative integer; at the input `2^28` the
encoder's unpack loop never terminates and no bytes are emitted (see
`vlq_c1_counterexample`), so the universal clause must be restricted to
values below `2^28`.  (Not every larger input fails that way — e.g.
`2^32` wraps to the 32-bit pattern 0 and encodes as `[0x00]` — but the
single divergent input already refutes the unrestricted clause.) -/
theorem vlq_c1_amended :
    (∀ v ∈ vlqTestValues,
       (encodeVlq v).map (fun bs => (vlqDecode bs : Int)) = some v)
    ∧ encodeVlq 0 = some [0]
    ∧ ∀ n : Nat, n < 2 ^ 28 →
        ∃ init last, encodeVlq (n : Int) = some (init ++ [last])
          ∧ (∀ b ∈ init, 128 ≤ b) ∧ last < 128 :=
  ⟨by decide, by decide, fun n hn => encodeVlq_byte_shape n hn⟩

/-- C1 counterexample: at the non-negative integer input
`2^28 = 268435456` the encoder produces no byte list at all (the
modelled packing loop yields the 32-bit buffer `0x80808081` whose four
bytes all carry the high bit, so the JavaScript unpack loop never
exits).  Hence “for every non-negative integer input, every emitted byte
except the last has its high bit set and the last byte has it clear”
fails: there are no emitted bytes. -/
theorem vlq_c1_counterexample :
    (0 : Int) ≤ 268435456 ∧ encodeVlq 268435456 = none := ⟨by decide, by decide⟩

/-- Witness for `vlq_c1_amended` at concrete inputs: the round-trip
holds at 16384 and the byte-shape property holds at 240 (the VLQ of the
example delta used elsewhere in the file). -/
theorem vlq_c1_witness :
    (encodeVlq 16384).map (fun bs => (vlqDecode bs : Int)) = some 16384
    ∧ ∃ init last, encodeVlq ((240 : Nat) : Int) = some (init ++ [last])
        ∧ (∀ b ∈ init, 128 ≤ b) ∧ last < 128 :=
  ⟨vlq_c1_amended.1 16384 (by decide), vlq_c1_amended.2.2 240 (by norm_num)⟩

/-! ## GM instrument lookup (`src/gm.ts`) -/

/-- The General MIDI program table of `src/gm.ts`, all 128 entries. -/
def GM_PROGRAM_TO_SOUNDFONT_NAME : List String :=
  [ "acoustic_grand_piano", "bright_acoustic_piano", "electric_grand_piano",
    "honkytonk_piano", "electric_piano_1", "electric_piano_2", "harpsichord",
    "clavinet",
    "celesta", "glockenspiel", "music_box", "vibraphone", "marimba",
    "xylophone", "tubular_bells", "dulcimer",
    "drawbar_organ", "percussive_organ", "rock_organ", "church_organ",
    "reed_organ", "accordion", "harmonica", "tango_accordion",
    "acoustic_guitar_nylon", "acoustic_guitar_steel", "electric_guitar_jazz",
    "electric_guitar_clean", "electric_guitar_muted", "overdriven_guitar",
    "distortion_guitar", "guitar_harmonics",
    "acoustic_bass", "electric_bass_finger", "electric_bass_pick",
    "fretless_bass", "slap_bass_1", "slap_bass_2", "synth_bass_1",
    "synth_bass_2",
    "violin", "viola", "cello", "contrabass", "tremolo_strings",
    "pizzicato_strings", "orchestral_harp", "timpani",
    "string_ensemble_1", "string_ensemble_2", "synth_strings_1",
    "synth_strings_2", "choir_aahs", "voice_oohs", "synth_choir",
    "orchestra_hit",
    "trumpet", "trombone", "tuba", "muted_trumpet", "french_horn",
    "brass_section", "synth_brass_1", "synth_brass_2",
    "soprano_sax", "alto_sax", "tenor_sax", "baritone_sax", "oboe",
    "english_horn", "bassoon", "clarinet",
    "piccolo", "flute", "recorder", "pan_flute", "blown_bottle",
    "shakuhachi", "whistle", "ocarina",
    "lead_1_square", "lead_2_sawtooth", "lead_3_calliope", "lead_4_chiff",
    "lead_5_charang", "lead_6_voice", "lead_7_fifths", "lead_8_bass__lead",
    "pad_1_new_age", "pad_2_warm", "pad_3_polysynth", "pad_4_choir",
    "pad_5_bowed", "pad_6_metallic", "pad_7_halo", "pad_8_sweep",
    "fx_1_rain", "fx_2_soundtrack", "fx_3_crystal", "fx_4_atmosphere",
    "fx_5_brightness", "fx_6_goblins", "fx_7_echoes", "fx_8_scifi",
    "sitar", "banjo", "shamisen", "koto", "kalimba", "bagpipe", "fiddle",
    "shanai",
    "tinkle_bell", "agogo", "steel_drums", "woodblock", "taiko_drum",
    "melodic_tom", "synth_drum", "reverse_cymbal",
    "guitar_fret_noise", "breath_noise", "seashore", "bird_tweet",
    "telephone_ring", "helicopter", "applause", "gunshot" ]

/-- Model of `Math.trunc` on a (finite) JavaScript number. -/
def jsTrunc (q : ℚ) : ℤ := if q < 0 then ⌈q⌉ else ⌊q⌋

/-- Model of `gmProgramToSoundfontName(program)` from `src/gm.ts`:
`const idx = Math.trunc(program); if (idx >= 0 && idx < table.length)
return table[idx]; return "acoustic_grand_piano";`.  The `getD` default
is unreachable because the branch guard bounds the index. -/
def gmProgramToSoundfontName (program : ℚ) : String :=
  let idx := jsTrunc program
  if 0 ≤ idx ∧ idx < (GM_PROGRAM_TO_SOUNDFONT_NAME.length : ℤ) then
    GM_PROGRAM_TO_SOUNDFONT_NAME.getD idx.toNat ""
  else "acoustic_grand_piano"

set_option maxRecDepth 8192 in
/-- C9 counterexample: the claim says a program value above 127 clamps
to index 127 (whose table entry is `"gunshot"`), but the code falls back
to `"acoustic_grand_piano"` for every out-of-range index: at program
128 the lookup does not return the entry at index 127. -/
theorem gm_c9_counterexample :
    gmProgramToSoundfontName 128 = "acoustic_grand_piano"
    ∧ GM_PROGRAM_TO_SOUNDFONT_NAME.getD 127 "" = "gunshot"
    ∧ gmProgramToSoundfontName 128 ≠ GM_PROGRAM_TO_SOUNDFONT_NAME.getD 127 "" :=
  ⟨by decide, by decide, by decide⟩

set_option maxRecDepth 8192 in
/-- C9 (amended): for every integer program `p` inside `[0,127]` the
lookup returns the GM table entry at index `p`; for every `p` outside
`[0,127]` it returns `"acoustic_grand_piano"` (the program-0 entry) —
there is no clamping to the nearest valid index.  (For negative `p` the
original claim's “resolves to the instrument at index 0” is
observationally true, since the fallback string equals the entry at
index 0.) -/
theorem gm_c9_amended (p : ℤ) :
    gmProgramToSoundfontName (p : ℚ)
      = if 0 ≤ p ∧ p < 128 then GM_PROGRAM_TO_SOUNDFONT_NAME.getD p.toNat ""
        else "acoustic_grand_piano" := by
  have ht : jsTrunc (p : ℚ) = p := by
    unfold jsTrunc
    split
    · exact Int.ceil_intCast p
    · exact Int.floor_intCast p
  have hlen : ((GM_PROGRAM_TO_SOUNDFONT_NAME.length : ℕ) : ℤ) = 128 := by decide
  simp only [gmProgramToSoundfontName]
  rw [ht, hlen]

/-! ## MIDI CSV parser (`src/midiCsv.ts`) -/

/-- The tagged union `MidiCsvEvent` of `src/midiCsv.ts`.  The source
declares `Note_on_c` and `Note_off_c` as one variant with a two-valued
`type` field; they are two constructors of identical shape here. -/
inductive MidiCsvEvent : Type
  | tempo (track tick mpqn : ℚ)
  | programC (track tick channel program : ℚ)
  | noteOnC (track tick channel note velocity : ℚ)
  | noteOffC (track tick channel note velocity : ℚ)
  deriving DecidableEq, Repr

def MidiCsvEvent.tick : MidiCsvEvent → ℚ
  | .tempo _ t _ => t
  | .programC _ t _ _ => t
  | .noteOnC _ t _ _ _ => t
  | .noteOffC _ t _ _ _ => t

/-- The `ParsedMidiCsv` result record. -/
structure ParsedMidiCsv where
  ppq : ℚ
  events : List MidiCsvEvent
  deriving DecidableEq, Repr

/-- The whitespace characters JavaScript `String.prototype.trim`
removes, restricted to the ASCII ones that can occur here: space, tab,
carriage return and newline, which is exactly `Char.isWhitespace`. -/
def isJsSpace (c : Char) : Bool := c.isWhitespace

/-- Model of `line.trim()`. -/
def trimChars (l : List Char) : List Char :=
  ((l.dropWhile isJsSpace).reverse.dropWhile isJsSpace).reverse

/-- Model of `text.split(/\r?\n/)`: a separator is `"\r\n"` or a bare `"\n"`. -/
def splitLinesAux (acc : List Char) : List Char → List (List Char)
  | [] => [acc.reverse]
  | '\r' :: '\n' :: rest => acc.reverse :: splitLinesAux [] rest
  | '\n' :: rest => acc.reverse :: splitLinesAux [] rest
  | c :: rest => splitLinesAux (c :: acc) rest

/-- Model of `line.split(",")`. -/
def splitCommaAux (acc : List Char) : List Char → List (List Char)
  | [] => [acc.reverse]
  | ',' :: rest => acc.reverse :: splitCommaAux [] rest
  | c :: rest => splitCommaAux (c :: acc) rest

/-- Model of `line.startsWith("#")`. -/
def startsWithHash : List Char → Bool
  | '#' :: _ => true
  | _ => false

/-- Model of `parseCsvLines` from `src/midiCsv.ts`: split on `/\r?\n/`, trim each
line, drop blank lines and lines starting with `#`, split the remaining
lines on commas and trim each field. -/
def parseCsvLines (text : String) : List (List String) :=
  (((splitLinesAux [] text.data).map trimChars).filter
      (fun line => !line.isEmpty && !startsWithHash line)).map
    (fun line => (splitCommaAux [] line).map fun f => String.mk (trimChars f))

/-- The PPQ scan of `parseMidiCsv`.  Faithful to the source's control
flow: the `break` sits *inside* `if (row[2] === "Header" && row.length
>= 6)`, so a `Header` row with fewer than six fields does **not** stop
the scan — the loop keeps looking for a later qualifying row. -/
def findPpq (num : String → Option ℚ) : List (List String) → ℚ
  | [] => 480
  | row :: rest =>
      if row.get? 2 = some "Header" ∧ 6 ≤ row.length then
        match (row.get? 5).bind num with
        | some d => if 0 < d then d else 480
        | none => 480
      else findPpq num rest

/-- One iteration of the event loop of `parseMidiCsv`; `none` when the
row is skipped.  `row[i]` beyond the row's length is `undefined` and
`Number(undefined)` is `NaN`, hence `(row.get? i).bind num`. -/
def rowToEvent (num : String → Option ℚ) (row : List String) :
    Option MidiCsvEvent :=
  if row.length < 3 then none
  else
    match (row.get? 0).bind num, (row.get? 1).bind num with
    | some track, some tick =>
        if row.get? 2 = some "Tempo" then
          match (row.get? 3).bind num with
          | some mpqn =>
              if 0 < mpqn then some (.tempo track tick mpqn) else none
          | none => none
        else if row.get? 2 = some "Program_c" then
          match (row.get? 3).bind num, (row.get? 4).bind num with
          | some channel, some program =>
              some (.programC track tick channel program)
          | _, _ => none
        else if row.get? 2 = some "Note_on_c" then
          match (row.get? 3).bind num, (row.get? 4).bind num,
              (row.get? 5).bind num with
          | some c, some n, some v => some (.noteOnC track tick c n v)
          | _, _, _ => none
        else if row.get? 2 = some "Note_off_c" then
          match (row.get? 3).bind num, (row.get? 4).bind num,
              (row.get? 5).bind num with
          | some c, some n, some v => some (.noteOffC track tick c n v)
          | _, _, _ => none
        else none
    | _, _ => none

/-- Model of `parseMidiCsv` from `src/midiCsv.ts`, parameterised by the model of
`Number(string)`.  Total by construction: malformed rows are skipped,
never raised on. -/
def parseMidiCsv (num : String → Option ℚ) (text : String) : ParsedMidiCsv :=
  let rows := parseCsvLines text
  { ppq := findPpq num rows, events := rows.filterMap (rowToEvent num) }

/-- The PPQ a single row would contribute: `some d` exactly when the row
is a `Header` row with at least six fields whose division field is
finite and positive. -/
def headerPpqOf (num : String → Option ℚ) (row : List String) : Option ℚ :=
  if row.get? 2 = some "Header" ∧ 6 ≤ row.length then
    match (row.get? 5).bind num with
    | some d => if 0 < d then some d else none
    | none => none
  else none

/-- A concrete stand-in for JavaScript `Number(string)` used in witnesses
and counterexamples: it parses plain decimal-digit strings, on which it
agrees with JavaScript, and returns `none` otherwise. -/
def numModel (s : String) : Option ℚ :=
  if s.data ≠ [] ∧ s.data.all Char.isDigit then
    some ((s.data.foldl (fun a c => a * 10 + (c.toNat - 48)) 0 : ℕ) : ℚ)
  else none

theorem findPpq_default (num : String → Option ℚ) (rows : List (List String))
    (h : ∀ row ∈ rows, headerPpqOf num row = none) : findPpq num rows = 480 := by
  induction rows with
  | nil => rfl
  | cons row rest ih =>
      have hrow := h row (by simp)
      unfold headerPpqOf at hrow
      unfold findPpq
      by_cases hq : row.get? 2 = some "Header" ∧ 6 ≤ row.length
      · rw [if_pos hq] at hrow ⊢
        cases hnum : (row.get? 5).bind num with
        | none => simp only [hnum]
        | some d =>
            rw [hnum] at hrow
            simp only [hnum]
            by_cases hd : (0 : ℚ) < d
            · simp [hd] at hrow
            · rw [if_neg hd]
      · rw [if_neg hq]
        exact ih fun r hr => h r (by simp [hr])

/-- C3: `parseMidiCsv` is total by construction (it is a Lean function
into `ParsedMidiCsv`, with no error path); on the empty string it
returns PPQ 480 and no events, and on any text all of whose surviving
rows fail both the Header-PPQ check and every event-row check it also
returns PPQ 480 and no events.  (Blank lines and `#` comment lines are
removed by `parseCsvLines` before the row checks.) -/
theorem parse_c3_total_default :
    (∀ num, parseMidiCsv num "" = ⟨480, []⟩)
    ∧ ∀ num text,
        (∀ row ∈ parseCsvLines text,
            headerPpqOf num row = none ∧ rowToEvent num row = none) →
        parseMidiCsv num text = ⟨480, []⟩ := by
  constructor
  · intro num; rfl
  · intro num text h
    show ParsedMidiCsv.mk _ _ = _
    rw [findPpq_default num _ fun r hr => (h r hr).1,
      List.filterMap_eq_nil_iff.mpr fun r hr => (h r hr).2]

/-- Witness for `parse_c3_total_default` on concrete garbage input. -/
theorem parse_c3_witness :
    parseMidiCsv numModel "nonsense\n# comment\n1, 2" = ⟨480, []⟩ :=
  parse_c3_total_default.2 numModel _ (by decide)

/-- C8 counterexample: in
`"0, 0, Header\n0, 0, Header, 1, 2, 96"` the *first* row whose third
field is `Header` has only three fields, so by the claim PPQ should be
the default 480 and no later Header row should matter; the code instead
keeps scanning and takes PPQ 96 from the second Header row. -/
theorem parse_c8_counterexample :
    (parseCsvLines "0, 0, Header\n0, 0, Header, 1, 2, 96").find?
        (fun row => row.get? 2 == some "Header")
      = some ["0", "0", "Header"]
    ∧ (["0", "0", "Header"] : List String).length < 6
    ∧ (parseMidiCsv numModel "0, 0, Header\n0, 0, Header, 1, 2, 96").ppq = 96
    ∧ (96 : ℚ) ≠ 480 :=
  ⟨by decide, by decide, by decide, by decide⟩

/-- C8 (amended): PPQ is determined by the first row whose third field
is `Header` **and** which has at least six fields: if that row's sixth
field parses to a finite number greater than 0, PPQ is that number,
otherwise 480; when no such row exists PPQ is 480.  Once such a
qualifying row has been encountered, no later row determines PPQ.  (A
`Header` row with fewer than six fields does not stop the scan.) -/
theorem parse_c8_amended (num : String → Option ℚ) (text : String) :
    (parseMidiCsv num text).ppq
      = match (parseCsvLines text).find?
            (fun row => decide (row.get? 2 = some "Header" ∧ 6 ≤ row.length)) with
        | none => 480
        | some row =>
            match (row.get? 5).bind num with
            | some d => if 0 < d then d else 480
            | none => 480 := by
  show findPpq num (parseCsvLines text) = _
  generalize parseCsvLines text = rows
  induction rows with
  | nil => rfl
  | cons row rest ih =>
      unfold findPpq
      by_cases hq : row.get? 2 = some "Header" ∧ 6 ≤ row.length
      · rw [if_pos hq, List.find?_cons_of_pos _ (by simpa using hq)]
      · rw [if_neg hq, List.find?_cons_of_neg _ (by simpa using hq), ih]

/-! ## Note pairing (`src/midiCsv.ts`, `pairNotes`) -/

/-- The `PairedNote` record. -/
structure PairedNote where
  channel : ℚ
  note : ℚ
  startTick : ℚ
  endTick : ℚ
  velocity : ℚ
  deriving DecidableEq, Repr

def MidiCsvEvent.isNote : MidiCsvEvent → Bool
  | .noteOnC .. => true
  | .noteOffC .. => true
  | _ => false

/-- Model of `Math.min` on two (finite) JavaScript numbers. -/
def jsMin (a b : ℚ) : ℚ := if a ≤ b then a else b

/-- Model of `Math.max` on two (finite) JavaScript numbers. -/
def jsMax (a b : ℚ) : ℚ := if b ≤ a then a else b

theorem le_jsMax_left (a b : ℚ) : a ≤ jsMax a b := by
  unfold jsMax
  split
  · exact le_refl a
  · exact le_of_not_le (by assumption)

/-- Model of `Math.min(1, Math.max(0, v / 127))`. -/
def clampVel (v : ℚ) : ℚ := jsMin 1 (jsMax 0 (v / 127))

/-- The per-key open-note stacks.  The source keys a `Map` by the string
`` `${channel}:${note}` ``, which is injective on (channel, note) pairs,
so the key is the pair itself here.  JavaScript pushes and pops at the
array's end; the list head is the stack top here.  An entry records the
pushed Note-On's `(tick, velocity)` (the only fields the source reads
from it). -/
abbrev NoteStacks := ℚ × ℚ → List (ℚ × ℚ)

/-- The event loop of `pairNotes` over the tick-sorted note events:
a Note-On with velocity > 0 pushes; a Note-Off, or a Note-On with
velocity = 0, pops the most recent open Note-On of its key (discarded
when the stack is empty); anything else (e.g. a negative-velocity
Note-On, which satisfies neither `isNoteOn` nor `isNoteOff`) is
skipped. -/
def pairGo (stks : NoteStacks) : List MidiCsvEvent → List PairedNote
  | [] => []
  | .noteOnC _ tick c n v :: rest =>
      if 0 < v then
        pairGo (Function.update stks (c, n) ((tick, v) :: stks (c, n))) rest
      else if v = 0 then
        match stks (c, n) with
        | [] => pairGo stks rest
        | (t, w) :: s =>
            ⟨c, n, t, tick, clampVel w⟩ ::
              pairGo (Function.update stks (c, n) s) rest
      else pairGo stks rest
  | .noteOffC _ tick c n _ :: rest =>
      match stks (c, n) with
      | [] => pairGo stks rest
      | (t, w) :: s =>
          ⟨c, n, t, tick, clampVel w⟩ ::
            pairGo (Function.update stks (c, n) s) rest
  | _ :: rest => pairGo stks rest

theorem pairGo_nil (stks : NoteStacks) : pairGo stks [] = [] := rfl

theorem pairGo_tempo (stks : NoteStacks) (tr tk mq : ℚ)
    (rest : List MidiCsvEvent) :
    pairGo stks (.tempo tr tk mq :: rest) = pairGo stks rest := rfl

theorem pairGo_program (stks : NoteStacks) (tr tk c p : ℚ)
    (rest : List MidiCsvEvent) :
    pairGo stks (.programC tr tk c p :: rest) = pairGo stks rest := rfl

theorem pairGo_noteOn (stks : NoteStacks) (tr tk c n v : ℚ)
    (rest : List MidiCsvEvent) :
    pairGo stks (.noteOnC tr tk c n v :: rest)
      = if 0 < v then
          pairGo (Function.update stks (c, n) ((tk, v) :: stks (c, n))) rest
        else if v = 0 then
          match stks (c, n) with
          | [] => pairGo stks rest
          | (t, w) :: s =>
              ⟨c, n, t, tk, clampVel w⟩ ::
                pairGo (Function.update stks (c, n) s) rest
        else pairGo stks rest := rfl

theorem pairGo_noteOff (stks : NoteStacks) (tr tk c n v : ℚ)
    (rest : List MidiCsvEvent) :
    pairGo stks (.noteOffC tr tk c n v :: rest)
      = match stks (c, n) with
        | [] => pairGo stks rest
        | (t, w) :: s =>
            ⟨c, n, t, tk, clampVel w⟩ ::
              pairGo (Function.update stks (c, n) s) rest := rfl

theorem pairGo_on_push (stks : NoteStacks) (tr tk c n v : ℚ)
    (rest : List MidiCsvEvent) (hv : 0 < v) :
    pairGo stks (.noteOnC tr tk c n v :: rest)
      = pairGo (Function.update stks (c, n) ((tk, v) :: stks (c, n))) rest := by
  rw [pairGo_noteOn, if_pos hv]

theorem pairGo_on_skip (stks : NoteStacks) (tr tk c n v : ℚ)
    (rest : List MidiCsvEvent) (hv : ¬ 0 < v) (hv0 : ¬ v = 0) :
    pairGo stks (.noteOnC tr tk c n v :: rest) = pairGo stks rest := by
  rw [pairGo_noteOn, if_neg hv, if_neg hv0]

theorem pairGo_on0_nil (stks : NoteStacks) (tr tk c n : ℚ)
    (rest : List MidiCsvEvent) (h : stks (c, n) = []) :
    pairGo stks (.noteOnC tr tk c n 0 :: rest) = pairGo stks rest := by
  rw [pairGo_noteOn, if_neg (lt_irrefl (0 : ℚ)), if_pos rfl, h]

theorem pairGo_on0_pop (stks : NoteStacks) (tr tk c n t w : ℚ)
    (s : List (ℚ × ℚ)) (rest : List MidiCsvEvent)
    (h : stks (c, n) = (t, w) :: s) :
    pairGo stks (.noteOnC tr tk c n 0 :: rest)
      = ⟨c, n, t, tk, clampVel w⟩ ::
          pairGo (Function.update stks (c, n) s) rest := by
  rw [pairGo_noteOn, if_neg (lt_irrefl (0 : ℚ)), if_pos rfl, h]

theorem pairGo_off_nil (stks : NoteStacks) (tr tk c n v : ℚ)
    (rest : List MidiCsvEvent) (h : stks (c, n) = []) :
    pairGo stks (.noteOffC tr tk c n v :: rest) = pairGo stks rest := by
  rw [pairGo_noteOff, h]

theorem pairGo_off_pop (stks : NoteStacks) (tr tk c n v t w : ℚ)
    (s : List (ℚ × ℚ)) (rest : List MidiCsvEvent)
    (h : stks (c, n) = (t, w) :: s) :
    pairGo stks (.noteOffC tr tk c n v :: rest)
      = ⟨c, n, t, tk, clampVel w⟩ ::
          pairGo (Function.update stks (c, n) s) rest := by
  rw [pairGo_noteOff, h]

/-- The comparator `(a, b) => a.tick - b.tick` as the total preorder a
stable ascending sort realises. -/
def noteTickLe (a b : MidiCsvEvent) : Bool := decide (a.tick ≤ b.tick)

/-- Model of `pairNotes` from `src/midiCsv.ts`: filter to note events, stable
sort ascending by tick, then run the pairing loop with empty stacks. -/
def pairNotes (events : List MidiCsvEvent) : List PairedNote :=
  pairGo (fun _ => [])
    ((events.filter MidiCsvEvent.isNote).mergeSort noteTickLe)

/-! ## Schedule building (`src/midiCsv.ts`, `notesToSchedule`) -/

def noteNames : List String :=
  ["C", "C#", "D"] ++ ["D#", "E", "F"] ++ ["F#", "G", "G#"] ++ ["A", "A#", "B"]

/-- JavaScript `%` (remainder with the dividend's sign). -/
def jsRem (a b : ℚ) : ℚ := a - b * (jsTrunc (a / b) : ℚ)

/-- JavaScript array indexing interpolated into a template string: a
non-integer or out-of-range index reads `undefined`, which interpolates
as `"undefined"`. -/
def jsIndexString (l : List String) (q : ℚ) : String :=
  if q.den = 1 ∧ 0 ≤ q.num ∧ q.num < (l.length : ℤ) then l.getD q.num.toNat ""
  else "undefined"

/-- Model of `midiNoteNumberToName(n)` from `src/midiCsv.ts`:
`names[((n % 12) + 12) % 12]` followed by `Math.floor(n / 12) - 1`. -/
def midiNoteNumberToName (n : ℚ) : String :=
  let octave : ℤ := ⌊n / 12⌋ - 1
  let idx := jsRem (jsRem n 12 + 12) 12
  jsIndexString noteNames idx ++ toString octave

/-- The `ScheduledNote` record. -/
structure ScheduledNote where
  time : ℚ
  duration : ℚ
  name : String
  velocity : ℚ
  channel : ℚ
  deriving DecidableEq, Repr

/-- The body of the `map` in `notesToSchedule`. -/
def scheduleOf (tts : ℚ → ℚ) (n : PairedNote) : ScheduledNote :=
  { time := tts n.startTick
    duration := jsMax (1 / 100) (tts n.endTick - tts n.startTick)
    name := midiNoteNumberToName n.note
    velocity := n.velocity
    channel := n.channel }

/-- The comparator `(a, b) => a.time - b.time`. -/
def schedLe (a b : ScheduledNote) : Bool := decide (a.time ≤ b.time)

/-- Model of `notesToSchedule` from `src/midiCsv.ts`: map each paired note to a
scheduled note, then stable sort ascending by start time. -/
def notesToSchedule (notes : List PairedNote) (tts : ℚ → ℚ) :
    List ScheduledNote :=
  (notes.map (scheduleOf tts)).mergeSort schedLe

theorem clampVel_nonneg (v : ℚ) : 0 ≤ clampVel v := by
  unfold clampVel jsMin jsMax
  by_cases h1 : v / 127 ≤ 0
  · rw [if_pos h1]
    norm_num
  · rw [if_neg h1]
    by_cases h2 : (1 : ℚ) ≤ v / 127
    · rw [if_pos h2]
      norm_num
    · rw [if_neg h2]
      linarith

theorem clampVel_le_one (v : ℚ) : clampVel v ≤ 1 := by
  unfold clampVel jsMin
  split
  · exact le_refl 1
  · exact le_of_not_le (by assumption)

/-- Invariant of the `pairGo` loop: every open stack entry was pushed by
a Note-On of the original event list (with the entry's key and fields),
and its tick is at most the tick of every event still to be processed. -/
def StackInv (events : List MidiCsvEvent) (stks : NoteStacks)
    (rest : List MidiCsvEvent) : Prop :=
  ∀ c n t w, (t, w) ∈ stks (c, n) →
    (∃ tr, MidiCsvEvent.noteOnC tr t c n w ∈ events) ∧ ∀ e ∈ rest, t ≤ e.tick

theorem stackInv_tail {events : List MidiCsvEvent} {stks : NoteStacks}
    {e : MidiCsvEvent} {rest : List MidiCsvEvent}
    (h : StackInv events stks (e :: rest)) : StackInv events stks rest :=
  fun c n t w hm =>
    ⟨(h c n t w hm).1, fun f hf => (h c n t w hm).2 f (List.mem_cons_of_mem _ hf)⟩

theorem stackInv_mono {events : List MidiCsvEvent} {stks stks2 : NoteStacks}
    {rest : List MidiCsvEvent} (h : StackInv events stks rest)
    (hsub : ∀ c n t w, (t, w) ∈ stks2 (c, n) → (t, w) ∈ stks (c, n)) :
    StackInv events stks2 rest := fun c n t w hm => h c n t w (hsub c n t w hm)

theorem pop_subset (stks : NoteStacks) (c n : ℚ) (hd : ℚ × ℚ)
    (s : List (ℚ × ℚ)) (hstack : stks (c, n) = hd :: s) :
    ∀ c2 n2 t w, (t, w) ∈ Function.update stks (c, n) s (c2, n2) →
      (t, w) ∈ stks (c2, n2) := by
  intro c2 n2 t w hm
  by_cases hk : ((c2, n2) : ℚ × ℚ) = (c, n)
  · rw [hk, Function.update_same] at hm
    rw [hk, hstack]
    exact List.mem_cons_of_mem _ hm
  · rwa [Function.update_noteq hk] at hm

/-- Core correctness of the pairing loop: every emitted note spans
forward in time, has a clamped velocity, and originates from a Note-On
of the input. -/
theorem pairGo_spec (events : List MidiCsvEvent) :
    ∀ (rest : List MidiCsvEvent) (stks : NoteStacks),
      StackInv events stks rest →
      rest.Pairwise (fun a b => a.tick ≤ b.tick) →
      (∀ e ∈ rest, e ∈ events) →
      ∀ pn ∈ pairGo stks rest,
        pn.startTick ≤ pn.endTick ∧ 0 ≤ pn.velocity ∧ pn.velocity ≤ 1 ∧
        ∃ tr w,
          MidiCsvEvent.noteOnC tr pn.startTick pn.channel pn.note w ∈ events
            ∧ pn.velocity = clampVel w := by
  intro rest
  induction rest with
  | nil => intro stks _ _ _ pn hpn; simp [pairGo] at hpn
  | cons e rest ih =>
      intro stks hinv hsort hsub pn hpn
      have hhead := (List.pairwise_cons.mp hsort).1
      have hsort2 := (List.pairwise_cons.mp hsort).2
      have hsub2 : ∀ f ∈ rest, f ∈ events := fun f hf =>
        hsub f (List.mem_cons_of_mem _ hf)
      cases e with
      | tempo tr tk mq =>
          simp only [pairGo] at hpn
          exact ih stks (stackInv_tail hinv) hsort2 hsub2 pn hpn
      | programC tr tk c p =>
          simp only [pairGo] at hpn
          exact ih stks (stackInv_tail hinv) hsort2 hsub2 pn hpn
      | noteOnC tr tk c n v =>
          by_cases hv : 0 < v
          · rw [pairGo, if_pos hv] at hpn
            refine ih _ ?_ hsort2 hsub2 pn hpn
            intro c2 n2 t w hm
            by_cases hk : ((c2, n2) : ℚ × ℚ) = (c, n)
            · have hc : c2 = c := (Prod.ext_iff.mp hk).1
              have hn : n2 = n := (Prod.ext_iff.mp hk).2
              subst hc; subst hn
              rw [Function.update_same] at hm
              rcases List.mem_cons.mp hm with hm1 | hm2
              · have ht : t = tk := (Prod.ext_iff.mp hm1).1
                have hw : w = v := (Prod.ext_iff.mp hm1).2
                subst ht; subst hw
                exact ⟨⟨tr, hsub _ (List.mem_cons_self _ _)⟩,
                  fun f hf => hhead f hf⟩
              · exact (stackInv_tail hinv) c2 n2 t w hm2
            · rw [Function.update_noteq hk] at hm
              exact (stackInv_tail hinv) c2 n2 t w hm
          · by_cases hv0 : v = 0
            · rw [pairGo, if_neg hv, if_pos hv0] at hpn
              cases hstack : stks (c, n) with
              | nil =>
                  rw [hstack] at hpn
                  exact ih stks (stackInv_tail hinv) hsort2 hsub2 pn hpn
              | cons hd s =>
                  obtain ⟨t, w⟩ := hd
                  rw [hstack] at hpn
                  have hopen := hinv c n t w (by rw [hstack]; exact List.mem_cons_self _ _)
                  rcases List.mem_cons.mp hpn with hpn1 | hpn2
                  · subst hpn1
                    exact ⟨hopen.2 _ (List.mem_cons_self _ _),
                      clampVel_nonneg w, clampVel_le_one w,
                      ⟨hopen.1.choose, w, hopen.1.choose_spec, rfl⟩⟩
                  · exact ih _ (stackInv_mono (stackInv_tail hinv)
                      (pop_subset stks c n (t, w) s hstack)) hsort2 hsub2 pn hpn2
            · rw [pairGo, if_neg hv, if_neg hv0] at hpn
              exact ih stks (stackInv_tail hinv) hsort2 hsub2 pn hpn
      | noteOffC tr tk c n v =>
          rw [pairGo] at hpn
          cases hstack : stks (c, n) with
          | nil =>
              rw [hstack] at hpn
              exact ih stks (stackInv_tail hinv) hsort2 hsub2 pn hpn
          | cons hd s =>
              obtain ⟨t, w⟩ := hd
              rw [hstack] at hpn
              have hopen := hinv c n t w (by rw [hstack]; exact List.mem_cons_self _ _)
              rcases List.mem_cons.mp hpn with hpn1 | hpn2
              · subst hpn1
                exact ⟨hopen.2 _ (List.mem_cons_self _ _),
                  clampVel_nonneg w, clampVel_le_one w,
                  ⟨hopen.1.choose, w, hopen.1.choose_spec, rfl⟩⟩
              · exact ih _ (stackInv_mono (stackInv_tail hinv)
                  (pop_subset stks c n (t, w) s hstack)) hsort2 hsub2 pn hpn2

/-- C5: every `PairedNote` produced by `pairNotes` satisfies
`startTick ≤ endTick`, its velocity is the originating Note-On's
velocity divided by 127 and clamped into `[0,1]` (witnessed by a
Note-On of the input with matching key, tick and velocity), and a close
event (Note-Off, or Note-On with velocity 0) whose key has no open
Note-On leaves the output untouched — and the function is total, so
nothing errors. -/
theorem pair_c5_validity :
    (∀ (events : List MidiCsvEvent), ∀ pn ∈ pairNotes events,
        pn.startTick ≤ pn.endTick ∧ 0 ≤ pn.velocity ∧ pn.velocity ≤ 1 ∧
        ∃ tr w,
          MidiCsvEvent.noteOnC tr pn.startTick pn.channel pn.note w ∈ events
            ∧ pn.velocity = clampVel w)
    ∧ (∀ (stks : NoteStacks) (tr tk c n v : ℚ) (rest : List MidiCsvEvent),
        stks (c, n) = [] →
        pairGo stks (.noteOffC tr tk c n v :: rest) = pairGo stks rest)
    ∧ (∀ (stks : NoteStacks) (tr tk c n : ℚ) (rest : List MidiCsvEvent),
        stks (c, n) = [] →
        pairGo stks (.noteOnC tr tk c n 0 :: rest) = pairGo stks rest) := by
  refine ⟨?_, ?_, ?_⟩
  · intro events pn hpn
    have htrans : ∀ a b c : MidiCsvEvent,
        noteTickLe a b → noteTickLe b c → noteTickLe a c := by
      intro a b c hab hbc
      simp only [noteTickLe, decide_eq_true_eq] at hab hbc ⊢
      exact le_trans hab hbc
    have htotal : ∀ a b : MidiCsvEvent, noteTickLe a b || noteTickLe b a := by
      intro a b
      simp only [noteTickLe, Bool.or_eq_true, decide_eq_true_eq]
      exact le_total _ _
    have hs := List.sorted_mergeSort htrans htotal
      (events.filter MidiCsvEvent.isNote)
    have hsorted :
        ((events.filter MidiCsvEvent.isNote).mergeSort noteTickLe).Pairwise
          fun a b => a.tick ≤ b.tick := by
      refine hs.imp ?_
      intro a b h
      simpa [noteTickLe] using h
    refine pairGo_spec events _ (fun _ => []) ?_ hsorted ?_ pn hpn
    · intro c n t w hm; simp at hm
    · intro e he
      exact List.mem_of_mem_filter (List.mem_mergeSort.mp he)
  · intro stks tr tk c n v rest hstack
    exact pairGo_off_nil stks tr tk c n v rest hstack
  · intro stks tr tk c n rest hstack
    exact pairGo_on0_nil stks tr tk c n rest hstack

theorem clampVel_90 : clampVel 90 = 90 / 127 := by
  norm_num [clampVel, jsMin, jsMax]

theorem clampVel_80 : clampVel 80 = 80 / 127 := by
  norm_num [clampVel, jsMin, jsMax]

/-- Evaluation of `pairNotes` on the two-event example (already sorted
by tick, so the stable sort is the identity there). -/
theorem pairNotes_example1 :
    pairNotes [MidiCsvEvent.noteOnC 1 0 0 60 90,
        MidiCsvEvent.noteOffC 1 240 0 60 0]
      = [⟨0, 60, 0, 240, 90 / 127⟩] := by
  unfold pairNotes
  rw [List.mergeSort_of_sorted (by decide)]
  show pairGo (fun _ => [])
      [MidiCsvEvent.noteOnC 1 0 0 60 90, MidiCsvEvent.noteOffC 1 240 0 60 0] = _
  rw [pairGo_on_push _ _ _ _ _ _ _ (by norm_num),
    pairGo_off_pop _ _ _ _ _ _ _ _ _ _ (Function.update_same _ _ _),
    pairGo_nil, clampVel_90]

/-- Witness for `pair_c5_validity` at a concrete input: the single note
paired from a Note-On at tick 0 and Note-Off at tick 240. -/
theorem pair_c5_witness :
    ((⟨0, 60, 0, 240, 90 / 127⟩ : PairedNote).startTick
        ≤ (⟨0, 60, 0, 240, 90 / 127⟩ : PairedNote).endTick)
    ∧ (0 ≤ (⟨0, 60, 0, 240, 90 / 127⟩ : PairedNote).velocity)
    ∧ ((⟨0, 60, 0, 240, 90 / 127⟩ : PairedNote).velocity ≤ 1)
    ∧ ∃ tr w,
        MidiCsvEvent.noteOnC tr (⟨0, 60, 0, 240, 90 / 127⟩ : PairedNote).startTick
            (⟨0, 60, 0, 240, 90 / 127⟩ : PairedNote).channel
            (⟨0, 60, 0, 240, 90 / 127⟩ : PairedNote).note w
          ∈ [MidiCsvEvent.noteOnC 1 0 0 60 90, MidiCsvEvent.noteOffC 1 240 0 60 0]
        ∧ (⟨0, 60, 0, 240, 90 / 127⟩ : PairedNote).velocity = clampVel w :=
  pair_c5_validity.1
    [MidiCsvEvent.noteOnC 1 0 0 60 90, MidiCsvEvent.noteOffC 1 240 0 60 0]
    ⟨0, 60, 0, 240, 90 / 127⟩
    (by rw [pairNotes_example1]; exact List.mem_singleton_self _)

/-- C6: after the stable tick-sort, a Note-On with velocity > 0 pushes
onto its key's stack (the new entry is the stack top); a Note-Off, or a
Note-On with velocity 0, pops the most recently pushed open Note-On of
the same key (LIFO) and emits the note spanning `[openTick, closeTick)`
with the opener's clamped velocity; a Note-On still open when the
stream ends contributes nothing; and on the concrete overlapping input
(same key opened at ticks 0 and 10, closed at 20 and 30) the
last-opened note closes first. -/
theorem pair_c6_lifo :
    (∀ (stks : NoteStacks) (tr tk c n v : ℚ) (rest : List MidiCsvEvent),
        0 < v →
        pairGo stks (.noteOnC tr tk c n v :: rest)
          = pairGo (Function.update stks (c, n) ((tk, v) :: stks (c, n))) rest)
    ∧ (∀ (stks : NoteStacks) (tr tk c n v t w : ℚ) (s : List (ℚ × ℚ))
          (rest : List MidiCsvEvent),
        stks (c, n) = (t, w) :: s →
        pairGo stks (.noteOffC tr tk c n v :: rest)
          = ⟨c, n, t, tk, clampVel w⟩ ::
              pairGo (Function.update stks (c, n) s) rest)
    ∧ (∀ (stks : NoteStacks) (tr tk c n t w : ℚ) (s : List (ℚ × ℚ))
          (rest : List MidiCsvEvent),
        stks (c, n) = (t, w) :: s →
        pairGo stks (.noteOnC tr tk c n 0 :: rest)
          = ⟨c, n, t, tk, clampVel w⟩ ::
              pairGo (Function.update stks (c, n) s) rest)
    ∧ (∀ (tr tk c n v : ℚ), 0 < v →
        ∀ (xs : List MidiCsvEvent) (stks : NoteStacks),
          pairGo stks (xs ++ [.noteOnC tr tk c n v]) = pairGo stks xs)
    ∧ pairNotes
          [MidiCsvEvent.noteOnC 1 0 0 60 90, MidiCsvEvent.noteOnC 1 10 0 60 80,
           MidiCsvEvent.noteOffC 1 20 0 60 0, MidiCsvEvent.noteOffC 1 30 0 60 0]
        = [⟨0, 60, 10, 20, 80 / 127⟩, ⟨0, 60, 0, 30, 90 / 127⟩] := by
  refine ⟨?_, ?_, ?_, ?_, ?_⟩
  · intro stks tr tk c n v rest hv
    exact pairGo_on_push stks tr tk c n v rest hv
  · intro stks tr tk c n v t w s rest hstack
    exact pairGo_off_pop stks tr tk c n v t w s rest hstack
  · intro stks tr tk c n t w s rest hstack
    exact pairGo_on0_pop stks tr tk c n t w s rest hstack
  · intro tr tk c n v hv xs
    induction xs with
    | nil =>
        intro stks
        rw [List.nil_append, pairGo_on_push _ _ _ _ _ _ _ hv, pairGo_nil, pairGo_nil]
    | cons e rest ih =>
        intro stks
        cases e with
        | tempo tr2 t2 m2 =>
            rw [List.cons_append, pairGo_tempo, pairGo_tempo]; exact ih _
        | programC tr2 t2 c2 p2 =>
            rw [List.cons_append, pairGo_program, pairGo_program]; exact ih _
        | noteOnC tr2 t2 c2 n2 v2 =>
            rw [List.cons_append]
            by_cases h2 : 0 < v2
            · rw [pairGo_on_push _ _ _ _ _ _ _ h2, pairGo_on_push _ _ _ _ _ _ _ h2]
              exact ih _
            · by_cases h20 : v2 = 0
              · subst h20
                cases hstack : stks (c2, n2) with
                | nil =>
                    rw [pairGo_on0_nil _ _ _ _ _ _ hstack,
                      pairGo_on0_nil _ _ _ _ _ _ hstack]
                    exact ih _
                | cons hd s =>
                    obtain ⟨t, w⟩ := hd
                    rw [pairGo_on0_pop _ _ _ _ _ _ _ _ _ hstack,
                      pairGo_on0_pop _ _ _ _ _ _ _ _ _ hstack, ih _]
              · rw [pairGo_on_skip _ _ _ _ _ _ _ h2 h20,
                  pairGo_on_skip _ _ _ _ _ _ _ h2 h20]
                exact ih _
        | noteOffC tr2 t2 c2 n2 v2 =>
            rw [List.cons_append]
            cases hstack : stks (c2, n2) with
            | nil =>
                rw [pairGo_off_nil _ _ _ _ _ _ _ hstack,
                  pairGo_off_nil _ _ _ _ _ _ _ hstack]
                exact ih _
            | cons hd s =>
                obtain ⟨t, w⟩ := hd
                rw [pairGo_off_pop _ _ _ _ _ _ _ _ _ _ hstack,
                  pairGo_off_pop _ _ _ _ _ _ _ _ _ _ hstack, ih _]
  · unfold pairNotes
    rw [List.mergeSort_of_sorted (by decide)]
    show pairGo (fun _ => [])
        [MidiCsvEvent.noteOnC 1 0 0 60 90, MidiCsvEvent.noteOnC 1 10 0 60 80,
         MidiCsvEvent.noteOffC 1 20 0 60 0, MidiCsvEvent.noteOffC 1 30 0 60 0]
      = _
    rw [pairGo_on_push _ _ _ _ _ _ _ (by norm_num),
      pairGo_on_push _ _ _ _ _ _ _ (by norm_num),
      pairGo_off_pop _ _ _ _ _ _ 10 80
        ((Function.update (fun _ => []) (0, 60) [(0, 90)]) (0, 60)) _
        (Function.update_same _ _ _),
      Function.update_same,
      pairGo_off_pop _ _ _ _ _ _ 0 90 [] _ (Function.update_same _ _ _),
      pairGo_nil, clampVel_80, clampVel_90]

/-- Witness for `pair_c6_lifo`: a Note-Off pops the open Note-On pushed
at tick 0 and emits the note `[0, 240)`. -/
theorem pair_c6_witness :
    pairGo (fun _ => [((0 : ℚ), (90 : ℚ))])
        [MidiCsvEvent.noteOffC 1 240 0 60 0]
      = ⟨0, 60, 0, 240, clampVel 90⟩ ::
          pairGo
            (Function.update (fun _ => [((0 : ℚ), (90 : ℚ))]) (0, 60) []) [] :=
  pair_c6_lifo.2.1 (fun _ => [((0 : ℚ), (90 : ℚ))]) 1 240 0 60 0 0 90 [] [] rfl

/-- C7: every scheduled note's duration is
`max(0.01, ticksToSeconds(endTick) - ticksToSeconds(startTick))` — in
particular at least 0.01 — and the schedule is sorted ascending by start
time, for every paired-note list and every tick-to-seconds function. -/
theorem sched_c7_durations_sorted (notes : List PairedNote) (tts : ℚ → ℚ) :
    (∀ s ∈ notesToSchedule notes tts,
        (∃ n ∈ notes, scheduleOf tts n = s
            ∧ s.duration = jsMax (1 / 100) (tts n.endTick - tts n.startTick))
        ∧ 1 / 100 ≤ s.duration)
    ∧ (notesToSchedule notes tts).Pairwise fun a b => a.time ≤ b.time := by
  constructor
  · intro s hs
    obtain ⟨n, hn, hsn⟩ := List.mem_map.mp (List.mem_mergeSort.mp hs)
    refine ⟨⟨n, hn, hsn, ?_⟩, ?_⟩
    · rw [← hsn]; rfl
    · rw [← hsn]
      exact le_jsMax_left _ _
  · have htrans : ∀ a b c : ScheduledNote,
        schedLe a b → schedLe b c → schedLe a c := by
      intro a b c hab hbc
      simp only [schedLe, decide_eq_true_eq] at hab hbc ⊢
      exact le_trans hab hbc
    have htotal : ∀ a b : ScheduledNote, schedLe a b || schedLe b a := by
      intro a b
      simp only [schedLe, Bool.or_eq_true, decide_eq_true_eq]
      exact le_total _ _
    refine (List.sorted_mergeSort htrans htotal _).imp ?_
    intro a b h
    simpa [schedLe] using h

theorem midiNoteNumberToName_60 : midiNoteNumberToName 60 = "C4" := by
  unfold midiNoteNumberToName jsIndexString jsRem jsTrunc
  norm_num
  decide

/-- Evaluation of `notesToSchedule` on a one-note list under the
identity tick-to-seconds map. -/
theorem schedule_example1 :
    notesToSchedule [⟨0, 60, 0, 240, 1⟩] (fun t => t)
      = [⟨0, 240, "C4", 1, 0⟩] := by
  unfold notesToSchedule
  show [scheduleOf (fun t => t) ⟨0, 60, 0, 240, 1⟩].mergeSort schedLe = _
  rw [List.mergeSort_singleton]
  unfold scheduleOf
  norm_num [jsMax, midiNoteNumberToName_60]

/-- Witness for `sched_c7_durations_sorted` at a concrete schedule: one
note from tick 0 to 240 under the identity tick-to-seconds map. -/
theorem sched_c7_witness :
    (∃ n ∈ [(⟨0, 60, 0, 240, 1⟩ : PairedNote)],
        scheduleOf (fun t => t) n = (⟨0, 240, "C4", 1, 0⟩ : ScheduledNote)
          ∧ (⟨0, 240, "C4", 1, 0⟩ : ScheduledNote).duration
              = jsMax (1 / 100) ((fun t => t) n.endTick - (fun t => t) n.startTick))
    ∧ 1 / 100 ≤ (⟨0, 240, "C4", 1, 0⟩ : ScheduledNote).duration :=
  (sched_c7_durations_sorted [⟨0, 60, 0, 240, 1⟩] (fun t => t)).1
    ⟨0, 240, "C4", 1, 0⟩
    (by rw [schedule_example1]; exact List.mem_singleton_self _)

/-! ## Tempo map (`src/midiCsv.ts`, `buildTempoMap`) -/

/-- One entry of the `segments` array of `buildTempoMap`:
`{tick, mpqn, accSeconds}`. -/
structure TempoSegment where
  tick : ℚ
  mpqn : ℚ
  accSeconds : ℚ
  deriving DecidableEq, Repr

/-- The comparator `(a, b) => a.tick - b.tick` on `(tick, mpqn)` pairs. -/
def tempoPointLe (a b : ℚ × ℚ) : Bool := decide (a.1 ≤ b.1)

/-- The tempo points of `buildTempoMap`: filter to Tempo events, keep
`(tick, mpqn)`, stable sort ascending by tick, and synthesize
`(0, 500000)` (120 BPM) when there are none. -/
def tempoPoints (events : List MidiCsvEvent) : List (ℚ × ℚ) :=
  let pts := (events.filterMap fun e =>
    match e with
    | .tempo _ tick mpqn => some (tick, mpqn)
    | _ => none).mergeSort tempoPointLe
  if pts.isEmpty then [(0, 500000)] else pts

/-- The segment-building loop of `buildTempoMap`: `prev` carries
`(lastTick, lastMpqn, accSeconds)` and each tempo point appends a
segment whose accumulated seconds extend the previous segment's at the
previous rate. -/
def buildSegsGo (ppq : ℚ) : TempoSegment → List (ℚ × ℚ) → List TempoSegment
  | _, [] => []
  | prev, (tick, mpqn) :: rest =>
      let secPerTick := prev.mpqn / 1000000 / ppq
      let acc := prev.accSeconds + (tick - prev.tick) * secPerTick
      ⟨tick, mpqn, acc⟩ :: buildSegsGo ppq ⟨tick, mpqn, acc⟩ rest

/-- The full `segments` array (the `[]` branch is unreachable:
`tempoPoints` is never empty). -/
def tempoSegments (events : List MidiCsvEvent) (ppq : ℚ) : List TempoSegment :=
  match tempoPoints events with
  | [] => []
  | (t0, m0) :: rest => ⟨t0, m0, 0⟩ :: buildSegsGo ppq ⟨t0, m0, 0⟩ rest

/-- The segment-formula `segment.accSeconds + (tick - segment.tick) *
(segment.mpqn / 1_000_000 / ppq)`. -/
def evalSeg (ppq : ℚ) (seg : TempoSegment) (tick : ℚ) : ℚ :=
  seg.accSeconds + (tick - seg.tick) * (seg.mpqn / 1000000 / ppq)

/-- The scan in `ticksToSeconds`: advance while the next segment's start
tick is `≤ tick`, stop at the first that is not (`else break`). -/
def pickSeg (tick : ℚ) : TempoSegment → List TempoSegment → TempoSegment
  | cur, [] => cur
  | cur, s :: rest => if s.tick ≤ tick then pickSeg tick s rest else cur

/-- The `ticksToSeconds` closure returned by `buildTempoMap` (the `[]`
branch is unreachable). -/
def ticksToSeconds (events : List MidiCsvEvent) (ppq : ℚ) (tick : ℚ) : ℚ :=
  match tempoSegments events ppq with
  | [] => 0
  | s0 :: rest => evalSeg ppq (pickSeg tick s0 rest) tick

/-- Adjacency relation along the segment list: start ticks are
non-decreasing and each segment's accumulated seconds equal the previous
segment's formula at its start tick (continuity by construction). -/
def SegR (ppq : ℚ) (s s2 : TempoSegment) : Prop :=
  s.tick ≤ s2.tick ∧ s2.accSeconds = evalSeg ppq s s2.tick

theorem evalSeg_mono (ppq : ℚ) (hppq : 0 < ppq) (s : TempoSegment)
    (hm : 0 < s.mpqn) {t1 t2 : ℚ} (h : t1 ≤ t2) :
    evalSeg ppq s t1 ≤ evalSeg ppq s t2 := by
  unfold evalSeg
  have hrate : 0 < s.mpqn / 1000000 / ppq := by positivity
  nlinarith

theorem evalSeg_self (ppq : ℚ) (s : TempoSegment) :
    evalSeg ppq s s.tick = s.accSeconds := by
  unfold evalSeg
  ring

theorem buildSegsGo_chain (ppq : ℚ) :
    ∀ (pts : List (ℚ × ℚ)) (prev : TempoSegment),
      (∀ p ∈ pts, prev.tick ≤ p.1) →
      pts.Pairwise (fun a b => a.1 ≤ b.1) →
      List.Chain (SegR ppq) prev (buildSegsGo ppq prev pts) := by
  intro pts
  induction pts with
  | nil => intro prev _ _; exact List.Chain.nil
  | cons p rest ih =>
      intro prev hge hsort
      obtain ⟨tick, mpqn⟩ := p
      refine List.Chain.cons ⟨hge _ (List.mem_cons_self _ _), rfl⟩ ?_
      exact ih _ (fun q hq => (List.pairwise_cons.mp hsort).1 q hq)
        (List.pairwise_cons.mp hsort).2

theorem buildSegsGo_mpqn (ppq : ℚ) :
    ∀ (pts : List (ℚ × ℚ)) (prev : TempoSegment),
      ∀ s ∈ buildSegsGo ppq prev pts, ∃ p ∈ pts, s.mpqn = p.2 := by
  intro pts
  induction pts with
  | nil => intro prev s hs; simp [buildSegsGo] at hs
  | cons p rest ih =>
      intro prev s hs
      obtain ⟨tick, mpqn⟩ := p
      rcases List.mem_cons.mp hs with h1 | h2
      · exact ⟨(tick, mpqn), List.mem_cons_self _ _, by rw [h1]⟩
      · obtain ⟨q, hq, hsq⟩ := ih _ s h2
        exact ⟨q, List.mem_cons_of_mem _ hq, hsq⟩

theorem tempoPoints_sorted (events : List MidiCsvEvent) :
    (tempoPoints events).Pairwise fun a b => a.1 ≤ b.1 := by
  unfold tempoPoints
  dsimp only
  split
  · simp
  · have htrans : ∀ a b c : ℚ × ℚ,
        tempoPointLe a b → tempoPointLe b c → tempoPointLe a c := by
      intro a b c hab hbc
      simp only [tempoPointLe, decide_eq_true_eq] at hab hbc ⊢
      exact le_trans hab hbc
    have htotal : ∀ a b : ℚ × ℚ, tempoPointLe a b || tempoPointLe b a := by
      intro a b
      simp only [tempoPointLe, Bool.or_eq_true, decide_eq_true_eq]
      exact le_total _ _
    refine (List.sorted_mergeSort htrans htotal _).imp ?_
    intro a b h
    simpa [tempoPointLe] using h

theorem tempoPoints_pos (events : List MidiCsvEvent)
    (hmpqn : ∀ tr tk mq, MidiCsvEvent.tempo tr tk mq ∈ events → 0 < mq) :
    ∀ p ∈ tempoPoints events, 0 < p.2 := by
  intro p hp
  unfold tempoPoints at hp
  dsimp only at hp
  split at hp
  · rcases List.mem_singleton.mp hp with rfl
    norm_num
  · obtain ⟨e, he, hep⟩ := List.mem_filterMap.mp (List.mem_mergeSort.mp hp)
    cases e with
    | tempo tr tk mq =>
        simp only [Option.some.injEq] at hep
        rw [← hep]
        exact hmpqn tr tk mq he
    | programC tr tk c q => simp at hep
    | noteOnC tr tk c n v => simp at hep
    | noteOffC tr tk c n v => simp at hep

/-- Advancing the scan never loses accumulated value: the current
segment's value at `t1` is at most the picked segment's value at
`t ≥ t1`, provided the scan cannot stop strictly between them. -/
theorem evalSeg_le_pick (ppq : ℚ) (hppq : 0 < ppq) :
    ∀ (rest : List TempoSegment) (cur : TempoSegment) (t1 t : ℚ),
      List.Chain (SegR ppq) cur rest →
      0 < cur.mpqn → (∀ s ∈ rest, 0 < s.mpqn) →
      t1 ≤ t →
      (∀ s, rest.head? = some s → t1 ≤ s.tick ∨ t < s.tick) →
      evalSeg ppq cur t1 ≤ evalSeg ppq (pickSeg t cur rest) t := by
  intro rest
  induction rest with
  | nil =>
      intro cur t1 t _ hcur _ ht _
      exact evalSeg_mono ppq hppq cur hcur ht
  | cons s rest ih =>
      intro cur t1 t hchain hcur hpos ht hhead
      rcases List.chain_cons.mp hchain with ⟨hR, hchain2⟩
      by_cases hs : s.tick ≤ t
      · have ht1s : t1 ≤ s.tick := by
          rcases hhead s rfl with h | h
          · exact h
          · exact absurd hs (not_le_of_lt h)
        have h1 : evalSeg ppq cur t1 ≤ evalSeg ppq cur s.tick :=
          evalSeg_mono ppq hppq cur hcur ht1s
        have h2 : evalSeg ppq cur s.tick = evalSeg ppq s s.tick := by
          rw [evalSeg_self, ← hR.2]
        have h3 : evalSeg ppq s s.tick ≤ evalSeg ppq (pickSeg t s rest) t := by
          refine ih s s.tick t hchain2 (hpos s (List.mem_cons_self _ _))
            (fun q hq => hpos q (List.mem_cons_of_mem _ hq)) hs ?_
          intro q hq
          left
          cases rest with
          | nil => simp at hq
          | cons q2 rest2 =>
              simp only [List.head?_cons, Option.some.injEq] at hq
              rw [← hq]
              exact (List.chain_cons.mp hchain2).1.1
        have hpick : pickSeg t cur (s :: rest) = pickSeg t s rest := if_pos hs
        rw [hpick]
        exact le_trans h1 (le_trans (le_of_eq h2) h3)
      · have hpick : pickSeg t cur (s :: rest) = cur := if_neg hs
        rw [hpick]
        exact evalSeg_mono ppq hppq cur hcur ht

theorem pick_mono (ppq : ℚ) (hppq : 0 < ppq) :
    ∀ (rest : List TempoSegment) (cur : TempoSegment) (t1 t2 : ℚ),
      List.Chain (SegR ppq) cur rest →
      0 < cur.mpqn → (∀ s ∈ rest, 0 < s.mpqn) →
      t1 ≤ t2 →
      evalSeg ppq (pickSeg t1 cur rest) t1
        ≤ evalSeg ppq (pickSeg t2 cur rest) t2 := by
  intro rest
  induction rest with
  | nil =>
      intro cur t1 t2 _ hcur _ ht
      exact evalSeg_mono ppq hppq cur hcur ht
  | cons s rest ih =>
      intro cur t1 t2 hchain hcur hpos ht
      rcases List.chain_cons.mp hchain with ⟨hR, hchain2⟩
      by_cases h1 : s.tick ≤ t1
      · rw [show pickSeg t1 cur (s :: rest) = pickSeg t1 s rest from if_pos h1,
          show pickSeg t2 cur (s :: rest) = pickSeg t2 s rest from
            if_pos (le_trans h1 ht)]
        exact ih s t1 t2 hchain2 (hpos s (List.mem_cons_self _ _))
          (fun q hq => hpos q (List.mem_cons_of_mem _ hq)) ht
      · by_cases h2 : s.tick ≤ t2
        · rw [show pickSeg t1 cur (s :: rest) = cur from if_neg h1]
          refine evalSeg_le_pick ppq hppq (s :: rest) cur t1 t2 hchain hcur
            hpos ht ?_
          intro q hq
          simp only [List.head?_cons, Option.some.injEq] at hq
          rw [← hq]
          exact Or.inl (le_of_not_le h1)
        · rw [show pickSeg t1 cur (s :: rest) = cur from if_neg h1,
            show pickSeg t2 cur (s :: rest) = cur from if_neg h2]
          exact evalSeg_mono ppq hppq cur hcur ht

theorem pick_at_tick (ppq : ℚ) :
    ∀ (rest : List TempoSegment) (cur : TempoSegment) (t : ℚ),
      List.Chain (SegR ppq) cur rest → cur.tick = t →
      evalSeg ppq (pickSeg t cur rest) t = evalSeg ppq cur t := by
  intro rest
  induction rest with
  | nil => intro cur t _ _; rfl
  | cons s rest ih =>
      intro cur t hchain hct
      rcases List.chain_cons.mp hchain with ⟨hR, hchain2⟩
      by_cases hs : s.tick ≤ t
      · have hst : s.tick = t := le_antisymm hs (hct ▸ hR.1)
        rw [show pickSeg t cur (s :: rest) = pickSeg t s rest from if_pos hs,
          ih s t hchain2 hst, ← hst, evalSeg_self, hR.2]
      · rw [show pickSeg t cur (s :: rest) = cur from if_neg hs]

/-- Decomposition of `tempoSegments`: under positive tempo values, any
cons decomposition carries the chain invariant and positivity. -/
theorem tempoSegments_spec (events : List MidiCsvEvent) (ppq : ℚ)
    (hmpqn : ∀ tr tk mq, MidiCsvEvent.tempo tr tk mq ∈ events → 0 < mq) :
    ∀ s0 rest, tempoSegments events ppq = s0 :: rest →
      List.Chain (SegR ppq) s0 rest ∧ 0 < s0.mpqn ∧ ∀ s ∈ rest, 0 < s.mpqn := by
  intro s0 rest h
  unfold tempoSegments at h
  cases hpts : tempoPoints events with
  | nil => rw [hpts] at h; simp at h
  | cons p pts2 =>
      obtain ⟨t0, m0⟩ := p
      rw [hpts] at h
      simp only [List.cons.injEq] at h
      obtain ⟨hs0, hrest⟩ := h
      have hsorted := tempoPoints_sorted events
      rw [hpts] at hsorted
      have hpos := tempoPoints_pos events hmpqn
      rw [hpts] at hpos
      subst hs0
      subst hrest
      refine ⟨?_, ?_, ?_⟩
      · refine buildSegsGo_chain ppq pts2 ⟨t0, m0, 0⟩ ?_
          (List.pairwise_cons.mp hsorted).2
        intro q hq
        exact (List.pairwise_cons.mp hsorted).1 q hq
      · exact hpos (t0, m0) (List.mem_cons_self _ _)
      · intro s hs
        obtain ⟨q, hq, hsq⟩ := buildSegsGo_mpqn ppq pts2 ⟨t0, m0, 0⟩ s hs
        rw [hsq]
        exact hpos q (List.mem_cons_of_mem _ hq)

/-- C4: with positive PPQ and positive tempo values, `ticksToSeconds`
is non-decreasing, and the segment list is continuous at every boundary:
each segment's accumulated seconds equal the previous segment's formula
evaluated at its start tick. -/
theorem tempo_c4_monotone_continuous (events : List MidiCsvEvent) (ppq : ℚ)
    (hppq : 0 < ppq)
    (hmpqn : ∀ tr tk mq, MidiCsvEvent.tempo tr tk mq ∈ events → 0 < mq) :
    (∀ t1 t2 : ℚ, t1 ≤ t2 →
        ticksToSeconds events ppq t1 ≤ ticksToSeconds events ppq t2)
    ∧ (tempoSegments events ppq).Chain'
        fun s s2 => evalSeg ppq s s2.tick = s2.accSeconds := by
  constructor
  · intro t1 t2 ht
    unfold ticksToSeconds
    cases hsegs : tempoSegments events ppq with
    | nil => exact le_refl 0
    | cons s0 rest =>
        obtain ⟨hchain, hpos0, hpos⟩ := tempoSegments_spec events ppq hmpqn s0 rest hsegs
        exact pick_mono ppq hppq rest s0 t1 t2 hchain hpos0 hpos ht
  · cases hsegs : tempoSegments events ppq with
    | nil => exact trivial
    | cons s0 rest =>
        obtain ⟨hchain, _, _⟩ := tempoSegments_spec events ppq hmpqn s0 rest hsegs
        show List.Chain _ s0 rest
        exact hchain.imp fun a b hab => hab.2.symm

/-- The C10 scenario: the only Tempo event sits at tick 480, while a
note spans ticks 0 to 240, entirely before it. -/
def c10events : List MidiCsvEvent :=
  [.tempo 1 480 500000, .noteOnC 1 0 0 60 90, .noteOffC 1 240 0 60 0]

/-- The tick of the first (sorted) tempo point — the tick the tempo map
anchors at zero seconds. -/
def firstTempoTick (events : List MidiCsvEvent) : ℚ :=
  match tempoPoints events with
  | [] => 0
  | p :: _ => p.1

/-- The mpqn of the first (sorted) tempo point. -/
def firstTempoMpqn (events : List MidiCsvEvent) : ℚ :=
  match tempoPoints events with
  | [] => 500000
  | p :: _ => p.2

theorem tempoPoints_ne_nil (events : List MidiCsvEvent) :
    tempoPoints events ≠ [] := by
  unfold tempoPoints
  dsimp only
  split
  · simp
  · intro h
    simp_all

theorem c10_tempoPoints : tempoPoints c10events = [(480, 500000)] := by
  unfold tempoPoints c10events
  dsimp only
  rw [show List.filterMap
      (fun e =>
        match e with
        | MidiCsvEvent.tempo _ tick mpqn => some (tick, mpqn)
        | _ => none)
      [MidiCsvEvent.tempo 1 480 500000, MidiCsvEvent.noteOnC 1 0 0 60 90,
        MidiCsvEvent.noteOffC 1 240 0 60 0]
      = [((480 : ℚ), (500000 : ℚ))] from rfl]
  rw [List.mergeSort_singleton]
  rfl

theorem c10_segments : tempoSegments c10events 480 = [⟨480, 500000, 0⟩] := by
  unfold tempoSegments
  rw [c10_tempoPoints]
  rfl

theorem c10_tts (t : ℚ) :
    ticksToSeconds c10events 480 t = (t - 480) * (500000 / 1000000 / 480) := by
  unfold ticksToSeconds
  rw [c10_segments]
  show evalSeg 480 (pickSeg t ⟨480, 500000, 0⟩ []) t = _
  unfold pickSeg evalSeg
  ring

theorem c10_pairs : pairNotes c10events = [⟨0, 60, 0, 240, 90 / 127⟩] := by
  unfold pairNotes
  rw [List.mergeSort_of_sorted (by decide)]
  show pairGo (fun _ => [])
      [MidiCsvEvent.noteOnC 1 0 0 60 90, MidiCsvEvent.noteOffC 1 240 0 60 0] = _
  rw [pairGo_on_push _ _ _ _ _ _ _ (by norm_num),
    pairGo_off_pop _ _ _ _ _ _ _ _ _ _ (Function.update_same _ _ _),
    pairGo_nil, clampVel_90]

theorem c10_schedule :
    notesToSchedule (pairNotes c10events) (ticksToSeconds c10events 480)
      = [⟨-(1 / 2), 1 / 4, "C4", 90 / 127, 0⟩] := by
  rw [c10_pairs]
  unfold notesToSchedule
  show [scheduleOf (ticksToSeconds c10events 480) ⟨0, 60, 0, 240, 90 / 127⟩].mergeSort
      schedLe = _
  rw [List.mergeSort_singleton]
  unfold scheduleOf
  rw [c10_tts, c10_tts]
  norm_num [jsMax, midiNoteNumberToName_60]

/-- C10: the tempo map anchors zero seconds at the earliest tempo
event's tick `T` rather than at tick 0; for ticks below `T` the first
segment's rate is extrapolated linearly, giving strictly negative times;
and on the concrete `c10events` input (Tempo at tick 480, note at ticks
0–240) the scheduled note start time is negative (−0.5 s). -/
theorem tempo_c10_anchor (events : List MidiCsvEvent) (ppq : ℚ)
    (hppq : 0 < ppq)
    (hmpqn : ∀ tr tk mq, MidiCsvEvent.tempo tr tk mq ∈ events → 0 < mq) :
    ticksToSeconds events ppq (firstTempoTick events) = 0
    ∧ (∀ t, t < firstTempoTick events →
        ticksToSeconds events ppq t
            = (t - firstTempoTick events) * (firstTempoMpqn events / 1000000 / ppq)
          ∧ ticksToSeconds events ppq t < 0)
    ∧ notesToSchedule (pairNotes c10events) (ticksToSeconds c10events 480)
        = [⟨-(1 / 2), 1 / 4, "C4", 90 / 127, 0⟩]
    ∧ (-(1 / 2) : ℚ) < 0 := by
  cases hpts : tempoPoints events with
  | nil => exact absurd hpts (tempoPoints_ne_nil events)
  | cons p pts2 =>
      obtain ⟨t0, m0⟩ := p
      have hT : firstTempoTick events = t0 := by
        unfold firstTempoTick; rw [hpts]
      have hM : firstTempoMpqn events = m0 := by
        unfold firstTempoMpqn; rw [hpts]
      have hsegs : tempoSegments events ppq
          = ⟨t0, m0, 0⟩ :: buildSegsGo ppq ⟨t0, m0, 0⟩ pts2 := by
        unfold tempoSegments; rw [hpts]
      obtain ⟨hchain, hpos0, hpos⟩ :=
        tempoSegments_spec events ppq hmpqn _ _ hsegs
      refine ⟨?_, ?_, c10_schedule, by norm_num⟩
      · unfold ticksToSeconds
        rw [hsegs, hT]
        show evalSeg ppq
            (pickSeg t0 ⟨t0, m0, 0⟩ (buildSegsGo ppq ⟨t0, m0, 0⟩ pts2)) t0 = 0
        rw [pick_at_tick ppq (buildSegsGo ppq ⟨t0, m0, 0⟩ pts2)
            ⟨t0, m0, 0⟩ t0 hchain rfl]
        exact evalSeg_self ppq ⟨t0, m0, 0⟩
      · intro t ht
        rw [hT] at ht
        have hpick : pickSeg t (⟨t0, m0, 0⟩ : TempoSegment)
            (buildSegsGo ppq ⟨t0, m0, 0⟩ pts2) = ⟨t0, m0, 0⟩ := by
          cases hbs : buildSegsGo ppq ⟨t0, m0, 0⟩ pts2 with
          | nil => rfl
          | cons s srest =>
              have hts : t0 ≤ s.tick := by
                have := List.chain_cons.mp (hbs ▸ hchain)
                exact this.1.1
              exact if_neg (not_le_of_lt (lt_of_lt_of_le ht hts))
        have heval : ticksToSeconds events ppq t
            = (t - t0) * (m0 / 1000000 / ppq) := by
          unfold ticksToSeconds
          rw [hsegs]
          show evalSeg ppq
              (pickSeg t ⟨t0, m0, 0⟩ (buildSegsGo ppq ⟨t0, m0, 0⟩ pts2)) t = _
          rw [hpick]
          unfold evalSeg
          ring
        refine ⟨by rw [heval, hT, hM], ?_⟩
        rw [heval]
        have hrate : 0 < m0 / 1000000 / ppq := by
          have : 0 < m0 := hpos0
          positivity
        exact mul_neg_of_neg_of_pos (by linarith) hrate

/-- Witness for `tempo_c10_anchor` at the concrete `c10events`, PPQ
480: zero seconds at tick 480 (the first tempo event's tick). -/
theorem tempo_c10_witness :
    ticksToSeconds c10events 480 (firstTempoTick c10events) = 0 :=
  (tempo_c10_anchor c10events 480 (by norm_num) (by
    intro tr tk mq h
    simp only [c10events, List.mem_cons, List.not_mem_nil, or_false] at h
    rcases h with h | h | h
    · rw [(MidiCsvEvent.tempo.injEq _ _ _ _ _ _).mp h |>.2.2]
      norm_num
    · exact absurd h (by simp)
    · exact absurd h (by simp))).1

/-- Witness for `tempo_c4_monotone_continuous` at the concrete
`c10events`: monotonicity between ticks 0 and 240. -/
theorem tempo_c4_witness :
    ticksToSeconds c10events 480 0 ≤ ticksToSeconds c10events 480 240 :=
  (tempo_c4_monotone_continuous c10events 480 (by norm_num) (by
    intro tr tk mq h
    simp only [c10events, List.mem_cons, List.not_mem_nil, or_false] at h
    rcases h with h | h | h
    · rw [(MidiCsvEvent.tempo.injEq _ _ _ _ _ _).mp h |>.2.2]
      norm_num
    · exact absurd h (by simp)
    · exact absurd h (by simp))).1 0 240 (by norm_num)

/-! ## Standard MIDI File encoder (`src/midiFile.ts`) -/

/-- Model of `u16be(n)`: `[(n >>> 8) & 0xff, n & 0xff]` — `>>>` applies
`ToUint32` first, so the pattern is `n % 2^32`. -/
def u16be (n : Nat) : List Nat := [n % 2 ^ 32 / 2 ^ 8 % 256, n % 2 ^ 32 % 256]

/-- Model of `u32be(n)`. -/
def u32be (n : Nat) : List Nat :=
  [n % 2 ^ 32 / 2 ^ 24 % 256, n % 2 ^ 32 / 2 ^ 16 % 256,
    n % 2 ^ 32 / 2 ^ 8 % 256, n % 2 ^ 32 % 256]

/-- Model of `ascii(s)`: `charCodeAt(0) & 0xff` per character. -/
def asciiBytes (s : String) : List Nat := s.data.map fun c => c.toNat % 256

/-- Model of `makeChunk(type, data)`. -/
def makeChunk (ty : String) (data : List Nat) : List Nat :=
  asciiBytes ty ++ u32be data.length ++ data

/-- The `TimedBytes` record `{tick, order, bytes}`; `tick` is already
clamped to a non-negative integer when a `TimedBytes` is built. -/
structure TimedBytes where
  tick : Nat
  order : Nat
  bytes : List Nat
  deriving DecidableEq, Repr

/-- Model of `clamp7bit(n)`: `Math.max(0, Math.min(127, Math.floor(n)))` (the
input is a finite rational here, so the `isFinite` guard is moot). -/
def clamp7bit (q : ℚ) : Nat := (max 0 (min 127 ⌊q⌋)).toNat

/-- Model of `Math.max(0, Math.floor(tick))`, as used for every event tick. -/
def tickNat (q : ℚ) : Nat := (max 0 ⌊q⌋).toNat

/-- Model of `clampByte` applied to the already-built status/data bytes (they are
natural numbers here, so only the upper clamp remains). -/
def clampByteN (n : Nat) : Nat := min n 255

/-- The channel-track event builder of `midiCsvToMidiFileBytes`:
Program-Change events get order 0 and status `0xC0 | ch`; a Note-Off, or
a Note-On whose clamped velocity is 0, gets order 1 and status
`0x80 | ch` with velocity byte `0x00`; any other Note-On gets order 2
and status `0x90 | ch`.  Tempo events do not appear in this track. -/
def channelTimedOf (e : MidiCsvEvent) : Option TimedBytes :=
  match e with
  | .programC _ tick channel program =>
      some ⟨tickNat tick, 0, [0xc0 ||| clamp7bit channel, clamp7bit program]⟩
  | .noteOnC _ tick channel note velocity =>
      if clamp7bit velocity = 0 then
        some ⟨tickNat tick, 1, [0x80 ||| clamp7bit channel, clamp7bit note, 0x00]⟩
      else
        some ⟨tickNat tick, 2,
          [0x90 ||| clamp7bit channel, clamp7bit note, clamp7bit velocity]⟩
  | .noteOffC _ tick channel note _ =>
      some ⟨tickNat tick, 1, [0x80 ||| clamp7bit channel, clamp7bit note, 0x00]⟩
  | .tempo _ _ _ => none

def channelTimed (events : List MidiCsvEvent) : List TimedBytes :=
  events.filterMap channelTimedOf

/-- The tempo-track events: `FF 51 03` plus the 3-byte big-endian mpqn
(clamped to `≥ 1`), with `order` the index in the sorted tempo list. -/
def tempoTimed (events : List MidiCsvEvent) : List TimedBytes :=
  (tempoPoints events).mapIdx fun idx p =>
    ⟨tickNat p.1, idx,
      [0xff, 0x51, 0x03,
        (max 1 ⌊p.2⌋).toNat % 2 ^ 32 / 2 ^ 16 % 256,
        (max 1 ⌊p.2⌋).toNat % 2 ^ 32 / 2 ^ 8 % 256,
        (max 1 ⌊p.2⌋).toNat % 2 ^ 32 % 256]⟩

/-- The comparator `(a, b) => a.tick - b.tick || a.order - b.order` as
the total preorder a stable ascending sort realises: ascending tick,
ties broken by ascending order. -/
def timedLe (a b : TimedBytes) : Bool :=
  decide (a.tick < b.tick ∨ (a.tick = b.tick ∧ a.order ≤ b.order))

def sortTimed (l : List TimedBytes) : List TimedBytes := l.mergeSort timedLe

/-- The `buildTrack` loop: each event contributes the VLQ of its delta
time followed by its (byte-clamped) message bytes; the canonical
end-of-track meta event closes the track.  `none` propagates the
(divergent) failure of `encodeVlq` on deltas `≥ 2^28`. -/
def buildTrackGo : Nat → List TimedBytes → Option (List Nat)
  | _, [] => some [0x00, 0xff, 0x2f, 0x00]
  | lastTick, ev :: rest =>
      match encodeVlq ((ev.tick : Int) - lastTick) with
      | none => none
      | some d =>
          match buildTrackGo ev.tick rest with
          | none => none
          | some tail => some (d ++ ev.bytes.map clampByteN ++ tail)

def buildTrack (evs : List TimedBytes) : Option (List Nat) := buildTrackGo 0 evs

/-- Model of `midiCsvToMidiFileBytes` from `src/midiFile.ts`: `MThd` chunk with
format 1, two tracks, division `ppq` clamped into `[1, 0x7fff]`,
followed by the tempo `MTrk` and the channel `MTrk`. -/
def midiCsvToMidiFileBytes (num : String → Option ℚ) (text : String) :
    Option (List Nat) :=
  match buildTrack (sortTimed (tempoTimed (parseMidiCsv num text).events)),
      buildTrack (sortTimed (channelTimed (parseMidiCsv num text).events)) with
  | some tt, some ct =>
      some (makeChunk "MThd"
          (u16be 1 ++ u16be 2
            ++ u16be ((max 1 (min 0x7fff ⌊(parseMidiCsv num text).ppq⌋)).toNat))
        ++ makeChunk "MTrk" tt ++ makeChunk "MTrk" ct)
  | _, _ => none

theorem mergeSort_pair {α : Type} (le : α → α → Bool) (a b : α) :
    [a, b].mergeSort le = if le a b then [a, b] else [b, a] := by
  rw [List.mergeSort]
  simp only [List.splitInTwo, List.splitAt_eq, List.take, List.drop,
    List.mergeSort_singleton, List.merge]
  split
  · simp [List.merge, *]
  · simp [List.merge, *]

/-- The C2 tie-break scenario: a Note-On and a Note-Off of the same
`(channel, note)` both at tick 240, with the Note-On first in the
text. -/
def c2text : String :=
  "0, 0, Header, 1, 2, 480\n2, 240, Note_on_c, 0, 60, 90\n2, 240, Note_off_c, 0, 60, 0"

theorem c2_events :
    (parseMidiCsv numModel c2text).events
      = [.noteOnC 2 240 0 60 90, .noteOffC 2 240 0 60 0] := by decide

theorem c2_channelSorted :
    sortTimed (channelTimed (parseMidiCsv numModel c2text).events)
      = [⟨240, 1, [128, 60, 0]⟩, ⟨240, 2, [144, 60, 90]⟩] := by
  rw [c2_events]
  have hch : channelTimed [.noteOnC 2 240 0 60 90, .noteOffC 2 240 0 60 0]
      = [⟨240, 2, [144, 60, 90]⟩, ⟨240, 1, [128, 60, 0]⟩] := by decide
  rw [hch]
  unfold sortTimed
  rw [mergeSort_pair]
  decide

theorem c2_channelTrack :
    buildTrack (sortTimed (channelTimed (parseMidiCsv numModel c2text).events))
      = some [129, 112, 128, 60, 0, 0, 144, 60, 90, 0, 255, 47, 0] := by
  rw [c2_channelSorted]
  decide

theorem c2_tempoTrack :
    buildTrack (sortTimed (tempoTimed (parseMidiCsv numModel c2text).events))
      = some [0, 255, 81, 3, 7, 161, 32, 0, 255, 47, 0] := by
  rw [c2_events]
  have h1 : tempoPoints [.noteOnC 2 240 0 60 90, .noteOffC 2 240 0 60 0]
      = [(0, 500000)] := by
    simp only [tempoPoints, List.filterMap_cons, List.filterMap_nil,
      List.mergeSort_nil]
    rfl
  have h2 : tempoTimed [.noteOnC 2 240 0 60 90, .noteOffC 2 240 0 60 0]
      = [⟨0, 0, [255, 81, 3, 7, 161, 32]⟩] := by
    unfold tempoTimed
    rw [h1]
    decide
  rw [h2]
  unfold sortTimed
  rw [List.mergeSort_singleton]
  decide

/-- C2: in the channel track of `midiCsvToMidiFileBytes`, events are
sorted ascending by tick with ties broken by `order`, where the `order`
assigned is 0 for Program-Change, 1 for Note-Off (including Note-On with
clamped velocity 0) and 2 for Note-On — so at equal tick every
Program-Change precedes every Note-Off, which precedes every Note-On.
On the concrete `c2text` input (Note-On then Note-Off of the same
channel and note, both at tick 240), the emitted file's channel track
carries the Note-Off's bytes `[0x80, 60, 0]` before the Note-On's bytes
`[0x90, 60, 90]`. -/
theorem midi_c2_ordering :
    (∀ (num : String → Option ℚ) (text : String),
        (sortTimed (channelTimed (parseMidiCsv num text).events)).Pairwise
          fun a b => a.tick < b.tick ∨ (a.tick = b.tick ∧ a.order ≤ b.order))
    ∧ (∀ tr tk c p : ℚ,
        (channelTimedOf (.programC tr tk c p)).map TimedBytes.order = some 0)
    ∧ (∀ tr tk c n v : ℚ,
        (channelTimedOf (.noteOffC tr tk c n v)).map TimedBytes.order = some 1)
    ∧ (∀ tr tk c n v : ℚ, clamp7bit v = 0 →
        (channelTimedOf (.noteOnC tr tk c n v)).map TimedBytes.order = some 1)
    ∧ (∀ tr tk c n v : ℚ, clamp7bit v ≠ 0 →
        (channelTimedOf (.noteOnC tr tk c n v)).map TimedBytes.order = some 2)
    ∧ sortTimed (channelTimed (parseMidiCsv numModel c2text).events)
        = [⟨240, 1, [128, 60, 0]⟩, ⟨240, 2, [144, 60, 90]⟩]
    ∧ midiCsvToMidiFileBytes numModel c2text
        = some ([77, 84, 104, 100, 0, 0, 0, 6, 0, 1, 0, 2, 1, 224]
            ++ ([77, 84, 114, 107, 0, 0, 0, 11]
                ++ [0, 255, 81, 3, 7, 161, 32] ++ [0, 255, 47, 0])
            ++ ([77, 84, 114, 107, 0, 0, 0, 13]
                ++ [129, 112] ++ [128, 60, 0] ++ [0] ++ [144, 60, 90]
                ++ [0, 255, 47, 0])) := by
  refine ⟨?_, fun tr tk c p => rfl, fun tr tk c n v => rfl, ?_, ?_,
    c2_channelSorted, ?_⟩
  · intro num text
    have htrans : ∀ a b c : TimedBytes,
        timedLe a b → timedLe b c → timedLe a c := by
      intro a b c hab hbc
      simp only [timedLe, decide_eq_true_eq] at hab hbc ⊢
      omega
    have htotal : ∀ a b : TimedBytes, timedLe a b || timedLe b a := by
      intro a b
      simp only [timedLe, Bool.or_eq_true, decide_eq_true_eq]
      omega
    refine (List.sorted_mergeSort htrans htotal _).imp ?_
    intro a b h
    simpa [timedLe] using h
  · intro tr tk c n v hv
    simp [channelTimedOf, hv]
  · intro tr tk c n v hv
    simp [channelTimedOf, hv]
  · unfold midiCsvToMidiFileBytes
    rw [c2_tempoTrack, c2_channelTrack]
    decide

/-- Witness for `midi_c2_ordering`: a Note-On with velocity 0 is
encoded as a Note-Off-ordered event (order 1). -/
theorem midi_c2_witness :
    (channelTimedOf (.noteOnC 1 240 0 60 0)).map TimedBytes.order = some 1 :=
  midi_c2_ordering.2.2.2.1 1 240 0 60 0 (by decide)

end MusicMaker
